import Mathlib

/-!
Verification development for the GmailPy email payload extraction pipeline.

The definitions below are a shallow embedding of the Python source:
  - `src/utils.py` : `remove_unicode`, `clean_text`, `extract_email_address`
  - `src/compiled_regexes.py` : the four precompiled regexes
  - `src/email_sections.py` : `links_detailed`, `links_basic`, `add_links`,
    `email_basic_information`, `email_message_from_partial`
  - `src/gmail.py` : `GmailService.__extract_custom_email`
  - `src/email_enumerators.py` : `LinksType`
  - `src/exceptions.py` : the exception classes, modelled as a sum type

Python dictionaries with a known shape are modelled as structures whose
optional keys are `Option` fields; exceptions are modelled with `Except`.
Machine-level caveats are documented on each definition.
-/

set_option maxRecDepth 10000

namespace GmailPy

/-! ## Character predicates

Python regex classes restricted to the code points this code base can meet.
`isPySpace` models both the regex class `\s` (with `re.UNICODE`, the default
for `str` patterns) and the character set stripped by `str.strip()`: the ASCII
whitespace characters, the C0 separators 0x1C..0x1F, NEL 0x85, NBSP 0xA0 and
the Unicode space characters.  `isPyWord` models `\w` on the ASCII range
(alphanumerics plus underscore); non-ASCII word characters outside the ranges
explicitly named by the regexes in `src/utils.py` are not modelled, and every
input appearing in the theorems below stays within the modelled range. -/

def isPySpace (c : Char) : Bool :=
  (9 ≤ c.toNat && c.toNat ≤ 13) || (28 ≤ c.toNat && c.toNat ≤ 32) ||
  c.toNat = 0x85 || c.toNat = 0xA0 || c.toNat = 0x1680 ||
  (0x2000 ≤ c.toNat && c.toNat ≤ 0x200A) ||
  c.toNat = 0x2028 || c.toNat = 0x2029 || c.toNat = 0x202F ||
  c.toNat = 0x205F || c.toNat = 0x3000

def isPyWord (c : Char) : Bool :=
  c.isAlphanum || c = '_'

/-- Characters removed by the first substitution of `remove_unicode`
(`src/utils.py` line 214): the class with U+200C, U+200B and U+00A0. -/
def isInvisChar (c : Char) : Bool :=
  c.toNat = 0x200C || c.toNat = 0x200B || c.toNat = 0xA0

/-- Characters KEPT by the second substitution of `remove_unicode`
(`src/utils.py` line 215): the complement of the negated class with word
characters, whitespace and the range U+00C0 to U+017F. -/
def keepRemoveUnicode (c : Char) : Bool :=
  isPyWord c || isPySpace c || (0xC0 ≤ c.toNat && c.toNat ≤ 0x17F)

/-- Characters removed by the second substitution of `clean_text`
(`src/utils.py` line 497): the class with U+2000 to U+200F, U+2028,
U+2029 and U+202A to U+202F. -/
def isFmtChar (c : Char) : Bool :=
  (0x2000 ≤ c.toNat && c.toNat ≤ 0x200F) ||
  (0x2028 ≤ c.toNat && c.toNat ≤ 0x202F)

def isNL (c : Char) : Bool :=
  c = '\r' || c = '\n'

/-! ## remove_unicode (src/utils.py lines 198-219)

Both substitutions are single-character-class deletions, hence filters.
The `re.error` handler in the source is dead code for these fixed patterns
(no pattern compilation can fail at call time), so the function is pure. -/

def removeUnicodeL (l : List Char) : List Char :=
  (l.filter (fun c => !(isInvisChar c))).filter keepRemoveUnicode

def remove_unicode (s : String) : String :=
  String.mk (removeUnicodeL s.data)

/-! ## clean_text (src/utils.py lines 475-500)

The first substitution `re.sub(r'(\r\n|\n|\r){2,}', '\n', text)` replaces
every maximal run of two or more newline sequences (each being `\r\n`, `\n`
or `\r`, with `\r\n` preferred) by a single `'\n'`.  It is implemented as a
single left-to-right pass: `goCollapse` buffers the current run of newline
characters (reversed) and `flushRun` emits either the run itself (when it
parses as a single newline sequence) or one `'\n'` (when it parses as two
or more). -/

/-- Whether a run of newline characters parses as a SINGLE newline sequence
of the regex (i.e. the run is exactly `\r`, `\n` or `\r\n`); every longer
run parses as two or more sequences (`\r\n` is preferred by the alternation,
so e.g. `\r\n\r` is two sequences) and is replaced by the regex. -/
def isSingleNLSeq (run : List Char) : Bool :=
  run = ['\r'] || run = ['\n'] || run = ['\r', '\n']

def flushRun (runRev : List Char) : List Char :=
  if runRev.reverse = [] then []
  else if isSingleNLSeq runRev.reverse then runRev.reverse
  else ['\n']

def goCollapse (runRev : List Char) : List Char → List Char
  | [] => flushRun runRev
  | c :: rest =>
    if isNL c then goCollapse (c :: runRev) rest
    else flushRun runRev ++ c :: goCollapse [] rest

def collapseNL (l : List Char) : List Char := goCollapse [] l

/-- Python `str.strip()`, right-hand side: drop the longest trailing block of
characters satisfying `p`. -/
def rstripL (p : Char → Bool) : List Char → List Char
  | [] => []
  | c :: t =>
    match rstripL p t with
    | [] => if p c then [] else [c]
    | r => c :: r

/-- Python `str.strip()` with the default whitespace set. -/
def pyStripL (l : List Char) : List Char :=
  rstripL isPySpace (l.dropWhile isPySpace)

def cleanTextL (l : List Char) : List Char :=
  if l = [] then []
  else pyStripL ((collapseNL l).filter (fun c => !(isFmtChar c)))

/-- `clean_text` from `src/utils.py`: the falsy check `if not text` returns
empty input unchanged, then the two substitutions and the final strip.
The `TypeError` branch for non-string input and the defensive
`UtilsTextFormattingError` handler cannot fire in this typed model. -/
def clean_text (s : String) : String :=
  String.mk (cleanTextL s.data)

/-- The end-of-assembly normalization exactly as applied by
`GmailService.__extract_custom_email` (`src/gmail.py` lines 1084-1085):
`remove_unicode` then `clean_text`. -/
def normalizeText (s : String) : String :=
  clean_text (remove_unicode s)

/-! ## Exceptions (src/exceptions.py)

Python exceptions are modelled as one sum type carrying the message (for
`KeyError`, the key / first argument).  `GmailPayloadError`, `GmailSetupError`
and `GmailServiceError` are the classes from `src/exceptions.py`
(`GmailSetupError` and `GmailPayloadError` both subclass `GmailServiceError`;
the constructors keep them distinguishable, as `isinstance` checks in the
source distinguish them).  `GmailEncodingError` is declared in
`src/exceptions.py` line 125 and never raised by the extraction pipeline. -/

inductive PyErr where
  | keyError (key : String)
  | valueError (msg : String)
  | typeError (msg : String)
  | binasciiError (msg : String)
  | unicodeDecodeError (msg : String)
  | unboundLocalError (msg : String)
  | exceptionGeneric (msg : String)
  | gmailPayloadError (msg : String)
  | gmailSetupError (msg : String)
  | gmailServiceError (msg : String)
  | gmailEncodingError (msg : String)
deriving DecidableEq, Repr

/-- Python `str(e)` for the modelled exceptions: `str` of a `KeyError` is the
`repr` of its argument, i.e. the key surrounded by single quotes; for the
others it is the message itself. -/
def strOfExc : PyErr → String
  | .keyError k => "\x27" ++ k ++ "\x27"
  | .valueError m | .typeError m | .binasciiError m | .unicodeDecodeError m
  | .unboundLocalError m | .exceptionGeneric m | .gmailPayloadError m
  | .gmailSetupError m | .gmailServiceError m | .gmailEncodingError m => m

/-! ## Regex scanners (src/compiled_regexes.py)

`re.findall` / `re.sub` with the four fixed patterns.  All four patterns are
an anchor literal followed by a greedy character class, so the Python re
leftmost scan is: try a match at each position, and on success resume after
the matched span (matches never overlap).  `scanWith` is that scan: it
returns the list of matches and the text with the matched spans deleted
(which is exactly `re.sub(pattern, "", text)`).  The `skip` counter tracks
how many characters of the current match are still to be consumed. -/

/-- Matches `anchor` followed by a non-empty greedy run of characters
satisfying `p`, at the head of `l` (one alternative of one of the fixed
patterns). -/
def anchorMatch (anchor : List Char) (p : Char → Bool) (l : List Char) :
    Option (List Char) :=
  if anchor.isPrefixOf l then
    let run := (l.drop anchor.length).takeWhile p
    if run = [] then none else some (anchor ++ run)
  else none

/-- `HTTP_HTTPS_URL = (?:https?://|www\.)\S+` at the head of `l`. -/
def matchHTTP (l : List Char) : Option (List Char) :=
  match anchorMatch "https://".data (fun c => !(isPySpace c)) l with
  | some m => some m
  | none =>
    match anchorMatch "http://".data (fun c => !(isPySpace c)) l with
    | some m => some m
    | none => anchorMatch "www.".data (fun c => !(isPySpace c)) l

/-- `DETAILED_LINK = https?://[^\s]+` at the head of `l`. -/
def matchDetailed (l : List Char) : Option (List Char) :=
  match anchorMatch "https://".data (fun c => !(isPySpace c)) l with
  | some m => some m
  | none => anchorMatch "http://".data (fun c => !(isPySpace c)) l

/-- `BASIC_LINK = https?://[^/]+` at the head of `l`. -/
def matchBasic (l : List Char) : Option (List Char) :=
  match anchorMatch "https://".data (fun c => !(c = '/')) l with
  | some m => some m
  | none => anchorMatch "http://".data (fun c => !(c = '/')) l

/-- `EMAIL_ADDRESS = [\w\.-]+@[\w\.-]+` class membership (`\w` on ASCII). -/
def emailChar (c : Char) : Bool :=
  isPyWord c || c = '.' || c = '-'

/-- `EMAIL_ADDRESS` at the head of `l`.  Both classes are greedy with no
backtracking possible since `@` is outside the class. -/
def matchEmail (l : List Char) : Option (List Char) :=
  let r1 := l.takeWhile emailChar
  if r1 = [] then none
  else
    match l.drop r1.length with
    | '@' :: a2 =>
      let r2 := a2.takeWhile emailChar
      if r2 = [] then none else some (r1 ++ '@' :: r2)
    | _ => none

/-- The `re` scan loop: at `skip = 0` try `m` at the current position; on a
match of length `k` emit it, delete its span from the text and skip the
remaining `k - 1` characters; otherwise keep the character and move on.
Every matcher above returns a non-empty match (anchor plus non-empty run),
so the span deleted is exactly the match. -/
def scanWith (m : List Char → Option (List Char)) : Nat → List Char →
    List (List Char) × List Char
  | _ + 1, [] => ([], [])
  | s + 1, _ :: rest => scanWith m s rest
  | 0, [] => ([], [])
  | 0, c :: rest =>
    match m (c :: rest) with
    | some tok =>
      let p := scanWith m (tok.length - 1) rest
      (tok :: p.1, p.2)
    | none =>
      let p := scanWith m 0 rest
      (p.1, c :: p.2)

/-- `re.findall(pattern, text)` for the modelled patterns. -/
def findallWith (m : List Char → Option (List Char)) (l : List Char) :
    List (List Char) :=
  (scanWith m 0 l).1

/-- `re.sub(pattern, "", text)` for the modelled patterns. -/
def subWith (m : List Char → Option (List Char)) (l : List Char) : List Char :=
  (scanWith m 0 l).2

/-! ## extract_email_address (src/utils.py lines 389-408) -/

/-- `non_empty_string` from `src/exceptions.py` lines 229-247; the
`TypeError` branch cannot fire in this typed model. -/
def non_empty_string (s : String) : Except PyErr Unit :=
  if s = "" then .error (.valueError "String parameter value cannot be empty.")
  else .ok ()

def extract_email_address (email_headers : String) :
    Except PyErr (List String) := do
  let _ ← non_empty_string email_headers
  .ok ((findallWith matchEmail email_headers.data).map String.mk)

/-! ## links_detailed / links_basic (src/email_sections.py lines 18-105)

The `TypeError` guards on the argument cannot fire in this typed model and
the `re.error` handlers are dead for fixed patterns.  Python accumulates
matches in a `set` and returns `list(set)`, whose iteration ORDER is
unspecified (hash-based); the model fixes first-occurrence order, and every
theorem below relies only on membership, multiplicity and length of the
result, which are order-independent. -/

def dedupFirstAux (seen : List String) : List String → List String
  | [] => []
  | s :: t =>
    if s ∈ seen then dedupFirstAux seen t
    else s :: dedupFirstAux (s :: seen) t

def dedupFirst (l : List String) : List String := dedupFirstAux [] l

def links_detailed (links : List String) : List String :=
  dedupFirst (links.flatMap (fun s => (findallWith matchDetailed s.data).map String.mk))

def links_basic (links : List String) : List String :=
  dedupFirst (links.flatMap (fun s => (findallWith matchBasic s.data).map String.mk))

/-! ## URL-safe base64 and UTF-8 decoding

Models `base64.urlsafe_b64decode(data).decode("utf-8")` from
`src/email_sections.py` line 457.  `urlsafe_b64decode` translates `-`/`_` to
`+`/`/` and calls `b64decode` with `validate=False`, which discards every
character outside the alphabet-plus-padding set before decoding, raises
`binascii.Error` when the number of data characters is congruent 1 mod 4,
and raises `binascii.Error: Incorrect padding` when the total count of kept
characters is not a multiple of 4.  The model assumes padding characters
follow the data characters (true of every real base64 payload). -/

def b64Index (c : Char) : Option Nat :=
  if 'A' ≤ c && c ≤ 'Z' then some (c.toNat - 65)
  else if 'a' ≤ c && c ≤ 'z' then some (c.toNat - 97 + 26)
  else if '0' ≤ c && c ≤ '9' then some (c.toNat - 48 + 52)
  else if c = '+' then some 62
  else if c = '/' then some 63
  else none

/-- Decode groups of 6-bit values into bytes (the count is never 1 mod 4
when this is reached). -/
def b64Bytes : List Nat → List Nat
  | a :: b :: c :: d :: rest =>
    (a * 4 + b / 16) :: ((b % 16) * 16 + c / 4) :: ((c % 4) * 64 + d) ::
      b64Bytes rest
  | [a, b] => [a * 4 + b / 16]
  | [a, b, c] => [a * 4 + b / 16, (b % 16) * 16 + c / 4]
  | _ => []

def urlsafe_b64decode (s : String) : Except PyErr (List Nat) :=
  let t := s.data.map (fun c => if c = '-' then '+' else if c = '_' then '/' else c)
  let kept := t.filter (fun c => (b64Index c).isSome || c = '=')
  let dataChars := kept.filter (fun c => (b64Index c).isSome)
  if dataChars.length % 4 = 1 then
    .error (.binasciiError
      ("Invalid base64-encoded string: number of data characters (" ++
        toString dataChars.length ++ ") cannot be 1 more than a multiple of 4"))
  else if kept.length % 4 ≠ 0 then
    .error (.binasciiError "Incorrect padding")
  else
    .ok (b64Bytes (dataChars.filterMap b64Index))

/-- Whether `b` is a UTF-8 continuation byte. -/
def utf8Cont (b : Nat) : Bool := 0x80 ≤ b && b ≤ 0xBF

/-- Strict UTF-8 decoding as done by `bytes.decode("utf-8")`: rejects
overlong encodings, surrogates and out-of-range code points. -/
def utf8DecodeAux : List Nat → Except PyErr (List Char)
  | [] => .ok []
  | b :: rest =>
    if b ≤ 0x7F then do
      let cs ← utf8DecodeAux rest
      .ok (Char.ofNat b :: cs)
    else if 0xC2 ≤ b && b ≤ 0xDF then
      match rest with
      | c :: rest2 =>
        if utf8Cont c then do
          let cs ← utf8DecodeAux rest2
          .ok (Char.ofNat ((b - 0xC0) * 64 + (c - 0x80)) :: cs)
        else .error (.unicodeDecodeError "invalid continuation byte")
      | [] => .error (.unicodeDecodeError "unexpected end of data")
    else if 0xE0 ≤ b && b ≤ 0xEF then
      match rest with
      | c :: d :: rest2 =>
        let lo := if b = 0xE0 then 0xA0 else 0x80
        let hi := if b = 0xED then 0x9F else 0xBF
        if (lo ≤ c && c ≤ hi) && utf8Cont d then do
          let cs ← utf8DecodeAux rest2
          .ok (Char.ofNat ((b - 0xE0) * 4096 + (c - 0x80) * 64 + (d - 0x80)) :: cs)
        else .error (.unicodeDecodeError "invalid continuation byte")
      | _ => .error (.unicodeDecodeError "unexpected end of data")
    else if 0xF0 ≤ b && b ≤ 0xF4 then
      match rest with
      | c :: d :: e :: rest2 =>
        let lo := if b = 0xF0 then 0x90 else 0x80
        let hi := if b = 0xF4 then 0x8F else 0xBF
        if (lo ≤ c && c ≤ hi) && utf8Cont d && utf8Cont e then do
          let cs ← utf8DecodeAux rest2
          .ok (Char.ofNat ((b - 0xF0) * 262144 + (c - 0x80) * 4096 +
            (d - 0x80) * 64 + (e - 0x80)) :: cs)
        else .error (.unicodeDecodeError "invalid continuation byte")
      | _ => .error (.unicodeDecodeError "unexpected end of data")
    else .error (.unicodeDecodeError "invalid start byte")

def utf8Decode (bs : List Nat) : Except PyErr String := do
  let cs ← utf8DecodeAux bs
  .ok (String.mk cs)

/-- `base64.urlsafe_b64decode(d).decode("utf-8")`. -/
def decodeStr (d : String) : Except PyErr String := do
  let bs ← urlsafe_b64decode d
  utf8Decode bs

/-! ## Data model (the provider message shape, spec section 3)

Each optional dictionary key becomes an `Option` field.  `RawMessage` keeps a
count of unmodelled top-level keys so that `non_empty_dict` (which only asks
whether the dictionary has any key at all) can be stated faithfully. -/

structure Header where
  name? : Option String
  value? : Option String
deriving DecidableEq, Repr

structure PartBody where
  data? : Option String
deriving DecidableEq, Repr

structure Part where
  mimeType? : Option String
  body? : Option PartBody
deriving DecidableEq, Repr

structure Payload where
  headers? : Option (List Header)
  parts? : Option (List Part)
deriving DecidableEq, Repr

structure RawMessage where
  payload? : Option Payload
  /-- Count of top-level keys other than `payload` (their values are never
  read by the extraction pipeline, only their existence matters to
  `non_empty_dict`). -/
  otherKeys : Nat
deriving DecidableEq, Repr

/-- Whether the message dictionary is empty (no key at all). -/
def RawMessage.isEmptyDict (m : RawMessage) : Bool :=
  m.payload?.isNone && m.otherKeys = 0

/-- `non_empty_dict` from `src/exceptions.py` lines 250-268; the `TypeError`
branch cannot fire in this typed model. -/
def non_empty_dict (m : RawMessage) : Except PyErr Unit :=
  if m.isEmptyDict then .error (.valueError "Dict parameter value cannot be empty.")
  else .ok ()

/-- Python value stored in the `from` / `to` / `subject` slots of the message
template: initialized to `None` (`src/gmail.py` lines 1058-1060), then
assigned either a list of strings (`from` / `to` get the list returned by
`extract_email_address`, `subject` gets a list comprehension). -/
inductive PyVal where
  | none
  | str (s : String)
  | strList (l : List String)
deriving DecidableEq, Repr

/-- The message template dictionary built by `__extract_custom_email`
(`src/gmail.py` lines 1057-1063) with the `links` sub-dictionary flattened
into its two keys, plus the optional `headres` key added at line 1089
(the key is misspelled that way in the source). -/
structure Template where
  fromVal : PyVal
  toVal : PyVal
  subject : PyVal
  message : String
  linksNumber : Nat
  linksHref : List String
  headres : Option (List Header)
deriving DecidableEq, Repr

/-- The template literal of `src/gmail.py` lines 1057-1063. -/
def initialTemplate : Template :=
  { fromVal := .none, toVal := .none, subject := .none, message := "",
    linksNumber := 0, linksHref := [], headres := Option.none }

/-- Result of `__extract_custom_email` and of the first component of
`email_message_from_partial`: either the empty dictionary literal (returned
at `src/gmail.py` line 1055 and inside the pair at `src/email_sections.py`
lines 444 and 448) or a populated template. -/
inductive ExtractResult where
  | emptyDict
  | template (t : Template)
deriving DecidableEq, Repr

/-- `LinksType` from `src/email_enumerators.py`.  Note the `NONE` variant has
the truthy string value `"None"`, not Python `None`. -/
inductive LinksType where
  | NONE
  | BASIC
  | DETAILED
deriving DecidableEq, Repr

def LinksType.value : LinksType → String
  | .NONE => "None"
  | .BASIC => "links_basic"
  | .DETAILED => "links_detailed"

/-- Modelled from the spec: `BeautifulSoup(chunk, "html.parser").get_text()`
(BeautifulSoup is an external library, not part of this repository).  Spec
section 4.4 step 4: strip markup, extracting the visible text only and
discarding tags.  Entity expansion is not modelled; on markup-free text the
function is the identity. -/
def soupAux (inTag : Bool) : List Char → List Char
  | [] => []
  | c :: rest =>
    if inTag then soupAux (decide (c ≠ '>')) rest
    else if c = '<' then soupAux true rest
    else c :: soupAux false rest

def soupGetText (s : String) : String :=
  String.mk (soupAux false s.data)

/-! ## email_basic_information (src/email_sections.py lines 367-413) -/

/-- `values["name"]` with its `KeyError`. -/
def Header.getName (h : Header) : Except PyErr String :=
  match h.name? with
  | some n => .ok n
  | none => .error (.keyError "name")

/-- `values["value"]` with its `KeyError`. -/
def Header.getValue (h : Header) : Except PyErr String :=
  match h.value? with
  | some v => .ok v
  | none => .error (.keyError "value")

/-- The list comprehension at `src/email_sections.py` lines 396-398:
`[j["value"] for j in email_data if j["name"] == "Subject"]` (for every
element the condition reads `j["name"]` first, then the kept elements read
`j["value"]`). -/
def collectSubjects : List Header → Except PyErr (List String)
  | [] => .ok []
  | h :: t => do
    let n ← h.getName
    if n = "Subject" then do
      let v ← h.getValue
      let rest ← collectSubjects t
      .ok (v :: rest)
    else collectSubjects t

/-- The `name == "From"` branch (`src/email_sections.py` lines 394-400):
the template gets `from := extract_email_address(value)` (a LIST of
addresses) and `subject := ` all Subject values of the whole header list. -/
def ebiFromStep (all : List Header) (h : Header) (mt : Template) :
    Except PyErr Template := do
  let v ← h.getValue
  let addrs ← extract_email_address v
  let subj ← collectSubjects all
  pure { mt with fromVal := .strList addrs, subject := .strList subj }

/-- The `name == "To"` branch (`src/email_sections.py` lines 401-403):
the template gets `to := extract_email_address(value)`. -/
def ebiToStep (h : Header) (mt : Template) : Except PyErr Template := do
  let v ← h.getValue
  let addrs ← extract_email_address v
  pure { mt with toVal := .strList addrs }

/-- One iteration of the `for values in email_data` loop: read `name`, then
the two NON-exclusive `if` statements of the source. -/
def ebiHeaderStep (all : List Header) (h : Header) (mt : Template) :
    Except PyErr Template := do
  let name ← h.getName
  let mt1 ← (if name = "From" then ebiFromStep all h mt else pure mt)
  (if name = "To" then ebiToStep h mt1 else pure mt1)

/-- The `for values in email_data` loop of `email_basic_information`; `all`
stays the full header list (both the Subject comprehension and the loop
itself range over it in the source). -/
def ebiLoop (all : List Header) : List Header → Template → Except PyErr Template
  | [], mt => .ok mt
  | h :: t, mt => do
    let mt2 ← ebiHeaderStep all h mt
    ebiLoop all t mt2

/-- `email_basic_information`: the loop wrapped by the two handlers at
`src/email_sections.py` lines 406-413 (a `KeyError` is re-raised as a
`KeyError` with a prefixed message, anything else as a plain `Exception`). -/
def email_basic_information (email_data : List Header) (mt : Template) :
    Except PyErr Template :=
  match ebiLoop email_data email_data mt with
  | .ok r => .ok r
  | .error (.keyError k) =>
    .error (.keyError ("Missing key while extracting basic email data: " ++
      strOfExc (.keyError k)))
  | .error e =>
    .error (.exceptionGeneric ("Unexpected error while extracting basic email data: " ++
      strOfExc e))

/-! ## email_message_from_partial (src/email_sections.py lines 416-470) -/

/-- `part["body"]["data"]` then base64 and UTF-8 decoding
(`src/email_sections.py` line 457). -/
def decodeChunk (p : Part) : Except PyErr String := do
  let body ← match p.body? with
    | some b => pure b
    | none => .error (.keyError "body")
  let d ← match body.data? with
    | some d => pure d
    | none => .error (.keyError "data")
  decodeStr d

/-- The `for part in message["payload"]["parts"]` loop
(`src/email_sections.py` lines 450-469): parts without `mimeType` are
skipped; `text/plain` / `text/html` parts are decoded, their raw decoded
text is scanned for `HTTP_HTTPS_URL` matches which are appended to `links`,
the same matches are deleted from the BeautifulSoup visible text, and the
per-part `clean_text` result is appended to the running message.  Inside
the per-part `try`, only `KeyError` is caught (and re-raised with a
prefixed message); decode failures propagate unwrapped. -/
def walkParts (mt : Template) (links : List String) : List Part →
    Except PyErr (Template × List String)
  | [] => .ok (mt, links)
  | p :: rest =>
    match p.mimeType? with
    | none => walkParts mt links rest
    | some m =>
      if m = "text/plain" ∨ m = "text/html" then
        match decodeChunk p with
        | .error (.keyError k) =>
          .error (.keyError ("Missing key in \x27part\x27 (partial) of email message: " ++
            strOfExc (.keyError k)))
        | .error e => .error e
        | .ok chunk =>
          let links2 := links ++ (findallWith matchHTTP chunk.data).map String.mk
          let text := String.mk (subWith matchHTTP (soupGetText chunk).data)
          walkParts { mt with message := mt.message ++ clean_text text } links2 rest
      else walkParts mt links rest

/-- `email_message_from_partial`: `non_empty_dict` first, then the two
defined-empty cases returning the pair of the empty dictionary and the empty
list, then the part loop. -/
def email_message_from_partial (message : RawMessage) (mt : Template) :
    Except PyErr (ExtractResult × List String) := do
  let _ ← non_empty_dict message
  match message.payload? with
  | Option.none => .ok (.emptyDict, [])
  | some payload =>
    match payload.parts? with
    | Option.none => .ok (.emptyDict, [])
    | some parts => do
      let (t, ls) ← walkParts mt [] parts
      .ok (.template t, ls)

/-! ## add_links (src/email_sections.py lines 108-145)

`getattr(sys.modules[__name__], link_type, None)` resolves the module
attribute named by `link_type`: `"links_detailed"` and `"links_basic"`
resolve to the two extractors, any other string (in particular `"None"`,
the value of `LinksType.NONE`) resolves to `None`, is not callable, and the
template is returned unchanged.  With a typed template the `KeyError`
handler is unreachable; the `non_empty_string` guard is kept (its failure
would be caught by the generic handler at line 143). -/
def add_links (links : List String) (link_type : String) (mt : Template) :
    Except PyErr Template :=
  if link_type = "" then
    .error (.exceptionGeneric
      "Unexpected exception while adding links: String parameter value cannot be empty.")
  else if link_type = "links_detailed" then
    let href := links_detailed links
    .ok { mt with linksHref := href, linksNumber := href.length }
  else if link_type = "links_basic" then
    let href := links_basic links
    .ok { mt with linksHref := href, linksNumber := href.length }
  else .ok mt

/-! ## GmailService.__extract_custom_email (src/gmail.py lines 1032-1097) -/

/-- Destructuring of the walker result pair into `(message_template, links)`
(`src/gmail.py` line 1074).  The walker can only return its empty-dictionary
case when `payload` or `parts` is missing, which the assembler has already
excluded when this runs; the branch is kept for faithfulness and reproduces
the `KeyError` that the subsequent subscripts of `{}` would raise
(`{}["links"]["href"]` inside `add_links` for a resolvable extractor name,
else `{}["message"]` at line 1084). -/
def handleWalkPair (links_type : LinksType) :
    ExtractResult × List String → Except PyErr (Template × List String)
  | (.template t, ls) => .ok (t, ls)
  | (.emptyDict, _) =>
    if links_type.value = "links_detailed" ∨ links_type.value = "links_basic" then
      .error (.keyError "Missing key in message_template: \x27links\x27")
    else .error (.keyError "message")

/-- The body-walk stage (`src/gmail.py` lines 1073-1076): when `parts` is
present the walker runs and its pair is destructured. -/
def walkStage (msg : RawMessage) (payload : Payload) (links_type : LinksType)
    (mt1 : Template) : Except PyErr (Template × List String) :=
  match payload.parts? with
  | some _ => do
    let r ← email_message_from_partial msg mt1
    handleWalkPair links_type r
  | Option.none => .ok (mt1, ([] : List String))

/-- The link-attachment stage (`src/gmail.py` lines 1078-1081):
`if links_type.value:` is always true because even `LinksType.NONE` has the
non-empty string value `"None"`. -/
def attachLinksStep (links_type : LinksType) (links : List String)
    (mtW : Template) : Except PyErr Template :=
  if links_type.value ≠ "" then add_links links links_type.value mtW
  else pure mtW

/-- The header-storing stage (`src/gmail.py` lines 1087-1089): `email_data`
is only bound inside the `if "headers" in msg["payload"]` branch (line
1068), so with `store_headers` set and no headers the assignment raises
`UnboundLocalError`; the `emailData?` argument carries that binding state. -/
def storeHeadersStep (store_headers : Bool) (emailData? : Option (List Header))
    (mt3 : Template) : Except PyErr Template :=
  if store_headers then
    match emailData? with
    | some hs => pure { mt3 with headres := some hs }
    | Option.none =>
      .error (.unboundLocalError
        "cannot access local variable \x27email_data\x27 where it is not associated with a value")
  else pure mt3

/-- Lines 1073-1091 of the big `try` block of `__extract_custom_email`:
everything after the header step — the body walk, the link attachment, the
end normalization (`remove_unicode` then `clean_text` on the accumulated
message, lines 1083-1085) and the header storing.  Split into the named
stages above only so that lemmas can be stated about each stage. -/
def extractAfterHeaders (msg : RawMessage) (payload : Payload)
    (links_type : LinksType) (store_headers : Bool)
    (emailData? : Option (List Header)) (mt1 : Template) :
    Except PyErr ExtractResult := do
  let (mtW, links) ← walkStage msg payload links_type mt1
  let mt2 ← attachLinksStep links_type links mtW
  let mt3 := { mt2 with message := clean_text (remove_unicode mt2.message) }
  let mt4 ← storeHeadersStep store_headers emailData? mt3
  .ok (.template mt4)

/-- The body of the big `try` block of `__extract_custom_email`
(`src/gmail.py` lines 1051-1091): a message without `payload` returns the
EMPTY dictionary `{}` (line 1055), not the initialized template; otherwise
the header step runs when `headers` is present and the rest of the block is
`extractAfterHeaders`. -/
def extractInner (msg : RawMessage) (links_type : LinksType)
    (store_headers : Bool) : Except PyErr ExtractResult := do
  match msg.payload? with
  | Option.none => .ok .emptyDict
  | some payload => do
    let mt0 := initialTemplate
    let (emailData?, mt1) ←
      match payload.headers? with
      | some hs => do
        let mt ← email_basic_information hs mt0
        pure (some hs, mt)
      | Option.none => pure ((Option.none : Option (List Header)), mt0)
    extractAfterHeaders msg payload links_type store_headers emailData? mt1

/-- `__extract_custom_email` with its two handlers (`src/gmail.py` lines
1092-1097).  A `KeyError` becomes `GmailPayloadError(f"{e}")` (the message
is the Python `str` of the `KeyError`, i.e. the quoted key).  Any other
exception reaches `raise GmailService(f"{e}")` — but `GmailService` is the
service CLASS, not an exception: evaluating `GmailService(str(e))` runs
`__init__`, which passes the string to `__setup_verification`, whose
non-dict branch (`src/gmail.py` lines 159-163, with the always-true
condition `if "invalid_grant" or ...`) raises
`GmailSetupError(f"Gmail credentials error: {setup}")`.  So the exception
that actually escapes is a `GmailSetupError` with that message. -/
def extractCustomEmail (msg : RawMessage) (links_type : LinksType)
    (store_headers : Bool) : Except PyErr ExtractResult :=
  match extractInner msg links_type store_headers with
  | .ok r => .ok r
  | .error (.keyError k) => .error (.gmailPayloadError (strOfExc (.keyError k)))
  | .error e => .error (.gmailSetupError ("Gmail credentials error: " ++ strOfExc e))

/-! ## Claim-side definitions

The following definitions restate what the spec sentences behind claims C2
and C7 describe, for comparison against the source-derived pipeline above. -/

/-- The link-stripped visible text of one recognized part, exactly the value
whose `clean_text` image the walker appends to the running message. -/
def partStrippedText (chunk : String) : String :=
  String.mk (subWith matchHTTP (soupGetText chunk).data)

/-- The link-stripped per-part texts of a message, in part order, with the
same skipping and decoding behavior as the walker. -/
def strippedTextsOfParts : List Part → Except PyErr (List String)
  | [] => .ok []
  | p :: rest =>
    match p.mimeType? with
    | none => strippedTextsOfParts rest
    | some m =>
      if m = "text/plain" ∨ m = "text/html" then
        match decodeChunk p with
        | .error (.keyError k) =>
          .error (.keyError ("Missing key in \x27part\x27 (partial) of email message: " ++
            strOfExc (.keyError k)))
        | .error e => .error e
        | .ok chunk => do
          let rest' ← strippedTextsOfParts rest
          .ok (partStrippedText chunk :: rest')
      else strippedTextsOfParts rest

def strippedTexts (msg : RawMessage) : Except PyErr (List String) :=
  match msg.payload? with
  | Option.none => .ok []
  | some payload =>
    match payload.parts? with
    | Option.none => .ok []
    | some parts => strippedTextsOfParts parts

/-- Concatenation of a list of strings in order. -/
def joinStrings : List String → String
  | [] => ""
  | s :: rest => s ++ joinStrings rest

/-- Claim C7 as stated: the final message text is the SINGLE end-of-assembly
normalization of the link-stripped per-part texts concatenated in part
order (no per-part normalization). -/
def claimedC7Message (texts : List String) : String :=
  normalizeText (joinStrings texts)

/-- The amended C7 relationship actually implemented: each per-part text is
passed through `clean_text` when appended, and the end-of-assembly
normalization is applied on top of the concatenation. -/
def actualC7Message (texts : List String) : String :=
  normalizeText (joinStrings (texts.map clean_text))

/-- Printable ASCII plus the ASCII whitespace characters (the input class of
the idempotence property in spec section 8). -/
def printableAsciiWS (c : Char) : Bool :=
  (0x20 ≤ c.toNat && c.toNat ≤ 0x7E) || (9 ≤ c.toNat && c.toNat ≤ 13)

/-! ## Concrete fixtures used by witnesses and counterexamples -/

/-- The header list of the spec section 8 resolver example. -/
def resolveExampleHeaders : List Header :=
  [⟨some "From", some "Jane <jane@x.com>"⟩,
   ⟨some "Subject", some "Hi"⟩,
   ⟨some "Subject", some "Re: Hi"⟩]

/-- A header list with a Subject entry and no From entry. -/
def subjectOnlyHeaders : List Header :=
  [⟨some "Subject", some "Hi"⟩]

/-- A recognized text part whose body data `"A"` is not valid base64 (one
data character is 1 more than a multiple of 4). -/
def badB64Part : Part :=
  ⟨some "text/plain", some ⟨some "A"⟩⟩

def badB64Msg : RawMessage :=
  ⟨some ⟨Option.none, some [badB64Part]⟩, 0⟩

/-- A message whose payload has neither headers nor parts. -/
def bareMsg : RawMessage :=
  ⟨some ⟨Option.none, Option.none⟩, 0⟩

/-- Message with two text/plain parts decoding to `"a "` and `" b"`. -/
def twoPartMsg : RawMessage :=
  ⟨some ⟨Option.none, some
    [⟨some "text/plain", some ⟨some "YSA="⟩⟩,
     ⟨some "text/plain", some ⟨some "IGI="⟩⟩]⟩, 0⟩

/-- Message with two text/plain parts, the first decoding to
`"see https://a.com/x and more"` and the second to `"hello world"`. -/
def urlMsg : RawMessage :=
  ⟨some ⟨Option.none, some
    [⟨some "text/plain", some ⟨some "c2VlIGh0dHBzOi8vYS5jb20veCBhbmQgbW9yZQ=="⟩⟩,
     ⟨some "text/plain", some ⟨some "aGVsbG8gd29ybGQ="⟩⟩]⟩, 0⟩

/-- Message whose only header is a From entry with an empty value, which
makes `extract_email_address` raise `ValueError` (a non-KeyError). -/
def emptyFromMsg : RawMessage :=
  ⟨some ⟨some [⟨some "From", some ""⟩], Option.none⟩, 0⟩

/-- Message whose only header lacks the `name` key, which raises a
`KeyError` inside `email_basic_information`. -/
def noNameMsg : RawMessage :=
  ⟨some ⟨some [⟨Option.none, some "x"⟩], Option.none⟩, 0⟩

/-- The error message of a one-data-character base64 failure. -/
def oneCharB64Error : String :=
  "Invalid base64-encoded string: number of data characters (1) cannot be 1 more than a multiple of 4"

deriving instance DecidableEq for Except

/-! # Theorems -/

/-! ## Claim C1 -/

/-- Claim C1 as stated is false: on a (non-empty) message without a
`payload` key the assembler returns the empty dictionary `{}`
(`src/gmail.py` line 1055), not the initialized default template with
unset from/to/subject, empty message and zero links. -/
theorem C1_counterexample :
    extractCustomEmail ⟨Option.none, 1⟩ .DETAILED true ≠
      .ok (.template initialTemplate) := by
  decide

/-- Claim C1 amended: for every raw message lacking `payload`, and every
links mode and store-headers setting, the assembler returns the empty
dictionary `{}` and never raises. -/
theorem C1_payload_absent_returns_empty_dict
    (msg : RawMessage) (lt : LinksType) (sh : Bool)
    (h : msg.payload? = Option.none) :
    extractCustomEmail msg lt sh = .ok .emptyDict := by
  simp [extractCustomEmail, extractInner, h]

theorem C1_witness :
    extractCustomEmail ⟨Option.none, 1⟩ .DETAILED true = .ok .emptyDict :=
  C1_payload_absent_returns_empty_dict ⟨Option.none, 1⟩ .DETAILED true rfl

/-! ## Claim C3 -/

/-- Claim C3 as stated is false: on the example header list the resolver
does extract the bare address and ignores the display name, but it stores
the whole LIST returned by `extract_email_address` (a `re.findall` result)
into the `from` slot, so `from` is `["jane@x.com"]`, not the string
`"jane@x.com"`. -/
theorem C3_counterexample :
    ¬ ∃ t, email_basic_information resolveExampleHeaders initialTemplate = .ok t ∧
      t.fromVal = .str "jane@x.com" := by
  rintro ⟨t, ht, hf⟩
  have : email_basic_information resolveExampleHeaders initialTemplate =
      .ok { initialTemplate with
              fromVal := .strList ["jane@x.com"],
              subject := .strList ["Hi", "Re: Hi"] } := by decide
  rw [this] at ht
  cases ht
  simp at hf

/-- Claim C3 amended: the resolver yields `from == ["jane@x.com"]` (the
singleton list holding the bare address, display name ignored) and
`subject == ["Hi", "Re: Hi"]` with both Subject entries collected in
encounter order. -/
theorem C3_resolver_example :
    email_basic_information resolveExampleHeaders initialTemplate =
      .ok { initialTemplate with
              fromVal := .strList ["jane@x.com"],
              subject := .strList ["Hi", "Re: Hi"] } := by
  decide

/-! ## Claim C6 -/

/-- Claim C6 is the documented intent but the code collects Subject values
only inside the `name == "From"` branch (`src/email_sections.py` lines
394-398): on a header list holding a Subject entry and no From entry the
resolver returns the template unchanged, with `subject` still unset. -/
theorem C6_subject_needs_from :
    email_basic_information subjectOnlyHeaders initialTemplate =
      .ok initialTemplate ∧ initialTemplate.subject = PyVal.none := by
  constructor
  · decide
  · rfl

/-! ## Claim C9 -/

/-- Claim C9 as stated is false at the empty dictionary: the walker calls
`non_empty_dict` first (`src/email_sections.py` line 439), so the empty
message dictionary raises `ValueError` instead of returning the defined
empty case. -/
theorem C9_counterexample :
    email_message_from_partial ⟨Option.none, 0⟩ initialTemplate =
      .error (.valueError "Dict parameter value cannot be empty.") ∧
    email_message_from_partial ⟨Option.none, 0⟩ initialTemplate ≠
      .ok (.emptyDict, []) := by
  constructor
  · decide
  · decide

/-- Claim C9 amended: for every NON-EMPTY message dictionary lacking
`payload`, and for every message whose payload lacks `parts`, the walker
returns the pair of the empty dictionary and the empty link list, and does
not fail. -/
theorem C9_defined_empty_cases (m : RawMessage) (mt : Template)
    (hne : m.isEmptyDict = false)
    (h : m.payload? = Option.none ∨
      ∃ pl, m.payload? = some pl ∧ pl.parts? = Option.none) :
    email_message_from_partial m mt = .ok (.emptyDict, []) := by
  rcases h with h | ⟨pl, hpl, hparts⟩
  · simp only [ email_message_from_partial, non_empty_dict, hne, h, Bool.false_eq_true,
      if_false, ite_false]
    rfl
  · simp only [ email_message_from_partial, non_empty_dict, hne, hpl, hparts,
      Bool.false_eq_true, if_false, ite_false]
    rfl

theorem C9_witness :
    email_message_from_partial bareMsg initialTemplate = .ok (.emptyDict, []) :=
  C9_defined_empty_cases bareMsg initialTemplate (by decide)
    (Or.inr ⟨⟨Option.none, Option.none⟩, rfl, rfl⟩)

/-! ## Monad reduction helpers -/

@[simp]
theorem exceptBind_ok {ε α β : Type} (a : α) (f : α → Except ε β) :
    (Except.ok a >>= f) = f a := rfl

@[simp]
theorem exceptBind_error {ε α β : Type} (e : ε) (f : α → Except ε β) :
    ((Except.error e : Except ε α) >>= f) = Except.error e := rfl

@[simp]
theorem exceptPure_eq {ε α : Type} (a : α) :
    (pure a : Except ε α) = Except.ok a := rfl

/-! ## Claim C10 -/

/-- Helper: `add_links` never fails when called with one of the three
`LinksType` values. -/
theorem add_links_value_ok (links : List String) (lt : LinksType) (mt : Template) :
    ∃ t, add_links links lt.value mt = .ok t := by
  cases lt <;> simp [add_links, LinksType.value]

/-- Claim C10 as stated is false: the first half (storeHeaders=true raises)
holds for every payload-present headers-absent message, but the second half
(the same message with storeHeaders=false assembles successfully) fails on
a message whose text part carries undecodable body data — the walker raises
during assembly regardless of the storeHeaders flag. -/
theorem C10_counterexample :
    badB64Msg.payload? = some ⟨Option.none, some [badB64Part]⟩ ∧
    extractCustomEmail badB64Msg .NONE false =
      .error (.gmailSetupError ("Gmail credentials error: " ++ oneCharB64Error)) := by
  constructor
  · rfl
  · decide

/-- Helper: `add_links` never touches the `message` field. -/
theorem add_links_message (links : List String) (lty : String) (mt mt' : Template)
    (h : add_links links lty mt = .ok mt') : mt'.message = mt.message := by
  rw [add_links] at h
  by_cases h0 : lty = ""
  · rw [if_pos h0] at h
    simp at h
  · rw [if_neg h0] at h
    by_cases h1 : lty = "links_detailed"
    · rw [if_pos h1] at h
      cases h
      rfl
    · rw [if_neg h1] at h
      by_cases h2 : lty = "links_basic"
      · rw [if_pos h2] at h
        cases h
        rfl
      · rw [if_neg h2] at h
        cases h
        rfl

/-- Helper: `attachLinksStep` always succeeds (the three `LinksType` values
are non-empty strings and `add_links` succeeds on a typed template) and
never touches the `message` field. -/
theorem attachLinksStep_ok (lt : LinksType) (links : List String) (mtW : Template) :
    ∃ mt2, attachLinksStep lt links mtW = .ok mt2 ∧ mt2.message = mtW.message := by
  rw [attachLinksStep]
  by_cases hv : lt.value ≠ ""
  · rw [if_pos hv]
    rcases add_links_value_ok links lt mtW with ⟨t2, h2⟩
    exact ⟨t2, h2, add_links_message links lt.value mtW t2 h2⟩
  · rw [if_neg hv]
    exact ⟨mtW, rfl, rfl⟩

/-- Helper: with `store_headers` unset the storing stage is the identity. -/
theorem storeHeadersStep_false (ed : Option (List Header)) (mt3 : Template) :
    storeHeadersStep false ed mt3 = .ok mt3 := rfl

/-- Helper: with `store_headers` set and `email_data` unbound the storing
stage raises `UnboundLocalError`. -/
theorem storeHeadersStep_true_none (mt3 : Template) :
    storeHeadersStep true Option.none mt3 =
      .error (.unboundLocalError
        "cannot access local variable \x27email_data\x27 where it is not associated with a value") := rfl

/-- Helper: the storing stage never touches the `message` field. -/
theorem storeHeadersStep_message (sh : Bool) (ed : Option (List Header))
    (mt3 mt4 : Template) (h : storeHeadersStep sh ed mt3 = .ok mt4) :
    mt4.message = mt3.message := by
  rw [storeHeadersStep.eq_def] at h
  cases sh
  · rw [if_neg (by simp)] at h
    cases h
    rfl
  · rw [if_pos rfl] at h
    rcases ed with _ | hs
    · simp at h
    · cases h
      rfl

/-- Helper: without `parts` the walk stage passes the template through. -/
theorem walkStage_no_parts (msg : RawMessage) (pl : Payload) (lt : LinksType)
    (mt1 : Template) (hp : pl.parts? = Option.none) :
    walkStage msg pl lt mt1 = .ok (mt1, []) := by
  rw [walkStage.eq_def, hp]

/-- Helper: with `store_headers = true` and `email_data` never bound, the
post-header stage always fails, whatever the other steps do. -/
theorem extractAfterHeaders_store_true_none (msg : RawMessage) (pl : Payload)
    (lt : LinksType) (mt1 : Template) (r : ExtractResult) :
    extractAfterHeaders msg pl lt true Option.none mt1 ≠ .ok r := by
  intro h
  rw [extractAfterHeaders] at h
  rcases hw : walkStage msg pl lt mt1 with e | ⟨mtW, links⟩ <;> rw [hw] at h
  · simp at h
  · simp only [exceptBind_ok] at h
    rcases attachLinksStep_ok lt links mtW with ⟨mt2, h2, _⟩
    rw [h2] at h
    simp only [exceptBind_ok] at h
    rw [storeHeadersStep_true_none] at h
    simp at h

/-- Helper: with `store_headers = false` and no parts, the post-header stage
returns a template. -/
theorem extractAfterHeaders_false_no_parts (msg : RawMessage) (pl : Payload)
    (lt : LinksType) (mt1 : Template) (hp : pl.parts? = Option.none) :
    ∃ t, extractAfterHeaders msg pl lt false Option.none mt1 =
      .ok (.template t) := by
  rw [extractAfterHeaders, walkStage_no_parts msg pl lt mt1 hp]
  simp only [exceptBind_ok]
  rcases attachLinksStep_ok lt [] mt1 with ⟨mt2, h2, _⟩
  rw [h2]
  simp only [exceptBind_ok]
  exact ⟨_, rfl⟩

/-- Claim C10 amended: for every raw message whose payload is present but
has no `headers` key, assembling with storeHeaders=true raises (the raw
header side field reads `email_data`, which was never bound, so the
`UnboundLocalError` reaches the catch-all and an error escapes), whereas
with storeHeaders=false the same message assembles successfully provided
the rest of the pipeline succeeds — in particular whenever `parts` is also
absent. -/
theorem C10_store_headers_unbound :
    (∀ (msg : RawMessage) (pl : Payload) (lt : LinksType),
      msg.payload? = some pl → pl.headers? = Option.none →
      ∃ e, extractCustomEmail msg lt true = .error e) ∧
    (∀ (msg : RawMessage) (pl : Payload) (lt : LinksType),
      msg.payload? = some pl → pl.headers? = Option.none →
      pl.parts? = Option.none →
      ∃ t, extractCustomEmail msg lt false = .ok (.template t)) := by
  constructor
  · intro msg pl lt hpl hh
    rcases h2 : extractInner msg lt true with e | r
    · cases e <;> exact ⟨_, by rw [extractCustomEmail, h2]⟩
    · exfalso
      rw [extractInner, hpl] at h2
      simp only [hh, exceptPure_eq, exceptBind_ok] at h2
      exact extractAfterHeaders_store_true_none msg pl lt initialTemplate r h2
  · intro msg pl lt hpl hh hp
    rcases extractAfterHeaders_false_no_parts msg pl lt initialTemplate hp with ⟨t, ht⟩
    refine ⟨t, ?_⟩
    have h2 : extractInner msg lt false = .ok (.template t) := by
      rw [extractInner, hpl]
      simp only [hh, exceptPure_eq, exceptBind_ok]
      exact ht
    rw [extractCustomEmail, h2]

theorem C10_witness :
    (∃ e, extractCustomEmail bareMsg .NONE true = .error e) ∧
    (∃ t, extractCustomEmail bareMsg .NONE false = .ok (.template t)) :=
  ⟨C10_store_headers_unbound.1 bareMsg ⟨Option.none, Option.none⟩ .NONE rfl rfl,
   C10_store_headers_unbound.2 bareMsg ⟨Option.none, Option.none⟩ .NONE rfl rfl rfl⟩

/-! ## Claim C4 -/

/-- Claim C4 as stated is false for the non-KeyError half: on a sub-step
`ValueError` (here: a From header with an empty value) the escaping
exception is a `GmailSetupError` saying "Gmail credentials error", produced
by the constructor of the service class in `raise GmailService(f"{e}")`,
not the generic `GmailServiceError`. -/
theorem C4_counterexample :
    extractCustomEmail emptyFromMsg .NONE false =
      .error (.gmailSetupError
        "Gmail credentials error: Unexpected error while extracting basic email data: String parameter value cannot be empty.") ∧
    ¬ ∃ m, extractCustomEmail emptyFromMsg .NONE false =
      .error (.gmailServiceError m) := by
  refine ⟨by decide, ?_⟩
  rintro ⟨m, hm⟩
  have h : extractCustomEmail emptyFromMsg .NONE false =
      .error (.gmailSetupError
        "Gmail credentials error: Unexpected error while extracting basic email data: String parameter value cannot be empty.") := by
    decide
  rw [h] at hm
  simp at hm

/-- Claim C4 amended: every `KeyError` raised by a sub-step is re-raised as
`GmailPayloadError` whose message is the Python string of the `KeyError`
(the quoted offending key); every other sub-step exception triggers
`raise GmailService(f"{e}")`, whose evaluation raises `GmailSetupError`
with message "Gmail credentials error: " followed by the original message
— a `GmailServiceError` subclass, but not the generic class; and no
sub-step exception escapes unclassified: every error escaping the
assembler is a `GmailPayloadError` or a `GmailSetupError`. -/
theorem C4_error_classification :
    (∀ (msg : RawMessage) (lt : LinksType) (sh : Bool) (k : String),
      extractInner msg lt sh = .error (.keyError k) →
      extractCustomEmail msg lt sh =
        .error (.gmailPayloadError (strOfExc (.keyError k)))) ∧
    (∀ (msg : RawMessage) (lt : LinksType) (sh : Bool) (e : PyErr),
      extractInner msg lt sh = .error e → (∀ k, e ≠ .keyError k) →
      extractCustomEmail msg lt sh =
        .error (.gmailSetupError ("Gmail credentials error: " ++ strOfExc e))) ∧
    (∀ (msg : RawMessage) (lt : LinksType) (sh : Bool) (e : PyErr),
      extractCustomEmail msg lt sh = .error e →
      (∃ m, e = .gmailPayloadError m) ∨ (∃ m, e = .gmailSetupError m)) := by
  refine ⟨?_, ?_, ?_⟩
  · intro msg lt sh k h
    rw [extractCustomEmail, h]
  · intro msg lt sh e h hk
    rw [extractCustomEmail, h]
    cases e <;> first
      | rfl
      | exact absurd rfl (hk _)
  · intro msg lt sh e h
    rw [extractCustomEmail] at h
    rcases h2 : extractInner msg lt sh with e' | r
    · rw [h2] at h
      cases e' <;> simp_all <;>
        first
          | exact Or.inl ⟨_, h.symm⟩
          | exact Or.inr ⟨_, h.symm⟩
    · rw [h2] at h
      simp at h

theorem C4_witness :
    extractCustomEmail noNameMsg .NONE false =
      .error (.gmailPayloadError
        (strOfExc (.keyError "Missing key while extracting basic email data: \x27name\x27"))) ∧
    extractCustomEmail emptyFromMsg .NONE true =
      .error (.gmailSetupError ("Gmail credentials error: " ++
        strOfExc (.exceptionGeneric
          "Unexpected error while extracting basic email data: String parameter value cannot be empty."))) ∧
    ((∃ m, PyErr.gmailPayloadError
        (strOfExc (.keyError "Missing key while extracting basic email data: \x27name\x27")) =
        .gmailPayloadError m) ∨
     (∃ m, PyErr.gmailPayloadError
        (strOfExc (.keyError "Missing key while extracting basic email data: \x27name\x27")) =
        .gmailSetupError m)) :=
  ⟨C4_error_classification.1 noNameMsg .NONE false
      "Missing key while extracting basic email data: \x27name\x27" (by decide),
   C4_error_classification.2.1 emptyFromMsg .NONE true
      (.exceptionGeneric
        "Unexpected error while extracting basic email data: String parameter value cannot be empty.")
      (by decide) (by intro k; simp),
   C4_error_classification.2.2 noNameMsg .NONE false
      (.gmailPayloadError
        (strOfExc (.keyError "Missing key while extracting basic email data: \x27name\x27")))
      (by decide)⟩

/-! ## Claim C5 -/

/-- Claim C5 as stated is false: a recognized text part whose body data
fails base64 decoding makes the walker propagate the raw `binascii.Error`
(only `KeyError` is caught at `src/email_sections.py` line 465); no
`GmailEncodingError` is raised and no part index is reported. -/
theorem C5_counterexample :
    email_message_from_partial badB64Msg initialTemplate =
      .error (.binasciiError oneCharB64Error) ∧
    ¬ ∃ m, email_message_from_partial badB64Msg initialTemplate =
      .error (.gmailEncodingError m) := by
  refine ⟨by decide, ?_⟩
  rintro ⟨m, hm⟩
  have h : email_message_from_partial badB64Msg initialTemplate =
      .error (.binasciiError oneCharB64Error) := by decide
  rw [h] at hm
  simp at hm

/-- Helper: the part loop on an appended list runs the first list first and
continues from its result. -/
theorem walkParts_append (a b : List Part) :
    ∀ (mt : Template) (links : List String),
    walkParts mt links (a ++ b) =
      (walkParts mt links a).bind (fun r => walkParts r.1 r.2 b) := by
  induction a with
  | nil => intro mt links; rfl
  | cons p rest ih =>
    intro mt links
    rw [List.cons_append, walkParts, walkParts]
    rcases p.mimeType? with _ | m
    · exact ih mt links
    · by_cases hm : m = "text/plain" ∨ m = "text/html"
      · simp only [hm, if_true]
        rcases decodeChunk p with e | chunk
        · cases e <;> rfl
        · exact ih _ _
      · simp only [hm, if_false]
        exact ih mt links

/-- Claim C5 amended: for every recognized `text/plain` or `text/html` part
whose inline body data fails URL-safe base64 decoding or UTF-8 decoding
(and that the walker reaches: the preceding parts walk successfully), the
body walker fails by propagating the raw decoding exception
(`binascii.Error` or `UnicodeDecodeError`) unchanged — no `EncodingError`
and no part index. -/
theorem C5_decode_failure_propagates_raw
    (parts₁ : List Part) (p : Part) (parts₂ : List Part)
    (mt mt' : Template) (ls : List String) (e : PyErr)
    (h1 : walkParts mt [] parts₁ = .ok (mt', ls))
    (hm : p.mimeType? = some "text/plain" ∨ p.mimeType? = some "text/html")
    (hd : decodeChunk p = .error e)
    (he : (∃ m, e = .binasciiError m) ∨ (∃ m, e = .unicodeDecodeError m)) :
    walkParts mt [] (parts₁ ++ p :: parts₂) = .error e := by
  rw [walkParts_append, h1]
  have hmime : ∃ m, p.mimeType? = some m ∧ (m = "text/plain" ∨ m = "text/html") := by
    rcases hm with hm | hm
    · exact ⟨_, hm, Or.inl rfl⟩
    · exact ⟨_, hm, Or.inr rfl⟩
  rcases hmime with ⟨m, hmm, hmv⟩
  rw [Except.bind, walkParts, hmm]
  simp only [hmv, if_true, hd]
  rcases he with ⟨m', rfl⟩ | ⟨m', rfl⟩ <;> rfl

theorem C5_witness :
    walkParts initialTemplate [] ([] ++ badB64Part :: []) =
      .error (.binasciiError oneCharB64Error) :=
  C5_decode_failure_propagates_raw [] badB64Part [] initialTemplate
    initialTemplate [] (.binasciiError oneCharB64Error)
    rfl (Or.inl rfl) (by decide) (Or.inl ⟨_, rfl⟩)

/-! ## Claim C7 -/

/-- Helper: the From branch never touches the `message` field. -/
theorem ebiFromStep_message (all : List Header) (hd : Header)
    (mt mt1 : Template) (h : ebiFromStep all hd mt = .ok mt1) :
    mt1.message = mt.message := by
  rw [ebiFromStep] at h
  rcases hv : hd.getValue with e | v <;> rw [hv] at h
  · simp at h
  · simp only [exceptBind_ok] at h
    rcases ha : extract_email_address v with e | addrs <;> rw [ha] at h
    · simp at h
    · simp only [exceptBind_ok] at h
      rcases hc : collectSubjects all with e | subj <;> rw [hc] at h
      · simp at h
      · simp only [exceptBind_ok, exceptPure_eq] at h
        cases h
        rfl

/-- Helper: the To branch never touches the `message` field. -/
theorem ebiToStep_message (hd : Header) (mt mt1 : Template)
    (h : ebiToStep hd mt = .ok mt1) : mt1.message = mt.message := by
  rw [ebiToStep] at h
  rcases hv : hd.getValue with e | v <;> rw [hv] at h
  · simp at h
  · simp only [exceptBind_ok] at h
    rcases ha : extract_email_address v with e | addrs <;> rw [ha] at h
    · simp at h
    · simp only [exceptBind_ok, exceptPure_eq] at h
      cases h
      rfl

/-- Helper: one header iteration never touches the `message` field. -/
theorem ebiHeaderStep_message (all : List Header) (hd : Header)
    (mt mt2 : Template) (h : ebiHeaderStep all hd mt = .ok mt2) :
    mt2.message = mt.message := by
  rw [ebiHeaderStep] at h
  rcases hn : hd.getName with e | name <;> rw [hn] at h
  · simp at h
  · simp only [exceptBind_ok] at h
    by_cases hf : name = "From"
    · rw [if_pos hf] at h
      rcases hb : ebiFromStep all hd mt with e | mt1 <;> rw [hb] at h
      · simp at h
      · simp only [exceptBind_ok] at h
        have h1 := ebiFromStep_message all hd mt mt1 hb
        by_cases ht : name = "To"
        · rw [if_pos ht] at h
          rw [ebiToStep_message hd mt1 mt2 h, h1]
        · rw [if_neg ht] at h
          cases h
          exact h1
    · rw [if_neg hf] at h
      simp only [exceptPure_eq, exceptBind_ok] at h
      by_cases ht : name = "To"
      · rw [if_pos ht] at h
        exact ebiToStep_message hd mt mt2 h
      · rw [if_neg ht] at h
        cases h
        rfl

/-- Helper: the header-resolver loop never touches the `message` field. -/
theorem ebiLoop_message (all : List Header) (hs : List Header) :
    ∀ (mt mt' : Template), ebiLoop all hs mt = .ok mt' →
      mt'.message = mt.message := by
  induction hs with
  | nil =>
    intro mt mt' h
    cases h
    rfl
  | cons hd tl ih =>
    intro mt mt' h
    rw [ebiLoop] at h
    rcases hb : ebiHeaderStep all hd mt with e | mt2 <;> rw [hb] at h
    · simp at h
    · simp only [exceptBind_ok] at h
      rw [ih mt2 mt' h, ebiHeaderStep_message all hd mt mt2 hb]

/-- Helper: `email_basic_information` never touches the `message` field. -/
theorem email_basic_information_message (hs : List Header) (mt mt' : Template)
    (h : email_basic_information hs mt = .ok mt') :
    mt'.message = mt.message := by
  rw [email_basic_information] at h
  rcases he : ebiLoop hs hs mt with e | r <;> rw [he] at h
  · cases e <;> simp at h
  · cases h
    exact ebiLoop_message hs hs mt mt' he

/-- Helper: a successful walk accumulates exactly the `clean_text` images of
the link-stripped per-part texts, in part order, onto the incoming message. -/
theorem walkParts_message (parts : List Part) :
    ∀ (mt : Template) (links : List String) (t : Template) (ls : List String),
      walkParts mt links parts = .ok (t, ls) →
      ∃ texts, strippedTextsOfParts parts = .ok texts ∧
        t.message = mt.message ++ joinStrings (texts.map clean_text) := by
  induction parts with
  | nil =>
    intro mt links t ls h
    cases h
    exact ⟨[], rfl, by simp [joinStrings]⟩
  | cons p rest ih =>
    intro mt links t ls h
    rw [walkParts] at h
    rcases hm : p.mimeType? with _ | m <;> simp only [hm] at h
    · rcases ih mt links t ls h with ⟨texts, h1, h2⟩
      exact ⟨texts, by simp only [strippedTextsOfParts, hm]; exact h1, h2⟩
    · by_cases hmv : m = "text/plain" ∨ m = "text/html"
      · rw [if_pos hmv] at h
        rcases hd : decodeChunk p with e | chunk <;> rw [hd] at h
        · rcases e <;> exact absurd h (by simp)
        · rcases ih _ _ t ls h with ⟨texts, h1, h2⟩
          refine ⟨partStrippedText chunk :: texts, ?_, ?_⟩
          · simp only [strippedTextsOfParts, hm, if_pos hmv, hd, exceptBind_ok, h1]
          · rw [h2]
            simp only [List.map_cons, joinStrings, String.append_assoc]
            rfl
      · rw [if_neg hmv] at h
        rcases ih mt links t ls h with ⟨texts, h1, h2⟩
        refine ⟨texts, ?_, h2⟩
        simp only [strippedTextsOfParts, hm, if_neg hmv]
        exact h1

/-- Helper: the assembler returns `ok` exactly when its inner body does. -/
theorem extractCustomEmail_ok_iff (msg : RawMessage) (lt : LinksType)
    (sh : Bool) (r : ExtractResult) :
    extractCustomEmail msg lt sh = .ok r ↔ extractInner msg lt sh = .ok r := by
  constructor
  · intro h
    rw [extractCustomEmail] at h
    rcases h2 : extractInner msg lt sh with e | r' <;> rw [h2] at h
    · cases e <;> exact absurd h (by simp)
    · injection h with h
      rw [← h]
  · intro h
    rw [extractCustomEmail, h]

/-- Helper: a message with a payload is not the empty dictionary. -/
theorem payload_not_emptyDict (msg : RawMessage) (pl : Payload)
    (h : msg.payload? = some pl) : msg.isEmptyDict = false := by
  simp [RawMessage.isEmptyDict, h]

/-- Claim C7 as stated is false: on the two-part message with texts `"a "`
and `" b"`, the assembled message is `"ab"` (each part was stripped by the
per-part `clean_text` before concatenation), while a single end-of-assembly
normalization of the concatenated link-stripped texts keeps the interior
spaces and yields `"a  b"`. -/
theorem C7_counterexample :
    strippedTexts twoPartMsg = .ok ["a ", " b"] ∧
    extractCustomEmail twoPartMsg .NONE false =
      .ok (.template { initialTemplate with message := "ab" }) ∧
    ("ab" : String) ≠ claimedC7Message ["a ", " b"] := by
  refine ⟨by decide, by decide, by decide⟩

/-- Helper: the walk stage accumulates the per-part `clean_text` images of
the link-stripped part texts onto the incoming message. -/
theorem walkStage_texts (msg : RawMessage) (pl : Payload) (lt : LinksType)
    (mt1 : Template) (mtW : Template) (links : List String)
    (hpl : msg.payload? = some pl)
    (hw : walkStage msg pl lt mt1 = .ok (mtW, links)) :
    ∃ texts, strippedTexts msg = .ok texts ∧
      mtW.message = mt1.message ++ joinStrings (texts.map clean_text) := by
  rw [walkStage.eq_def] at hw
  rcases hp : pl.parts? with _ | parts <;> simp only [hp] at hw
  · injection hw with hw
    injection hw with hw1 hw2
    refine ⟨[], by simp only [strippedTexts, hpl, hp], ?_⟩
    rw [← hw1]
    simp [joinStrings, String.append_empty]
  · rcases he : email_message_from_partial msg mt1 with e | ⟨er, ls2⟩ <;>
      rw [he] at hw
    · simp at hw
    · simp only [exceptBind_ok] at hw
      rcases er with _ | tw <;> simp only [handleWalkPair] at hw
      · by_cases hv : lt.value = "links_detailed" ∨ lt.value = "links_basic"
        · rw [if_pos hv] at hw
          simp at hw
        · rw [if_neg hv] at hw
          simp at hw
      · injection hw with hw
        injection hw with hw1 hw2
        rw [ email_message_from_partial] at he
        rw [non_empty_dict, payload_not_emptyDict msg pl hpl] at he
        simp only [Bool.false_eq_true, if_false, exceptBind_ok, hpl, hp] at he
        rcases hwk : walkParts mt1 [] parts with e2 | ⟨t2, ls3⟩ <;> rw [hwk] at he
        · simp at he
        · simp only [exceptBind_ok] at he
          injection he with he
          injection he with he1 he2
          injection he1 with he1
          rcases walkParts_message parts mt1 [] t2 ls3 hwk with ⟨texts, htx, hmsg2⟩
          refine ⟨texts, ?_, ?_⟩
          · simp only [strippedTexts, hpl, hp]
            exact htx
          · rw [← hw1, ← he1, hmsg2]

/-- Helper: whatever the post-header stage returns as a template carries the
message text obtained by the per-part accumulation followed by the end
normalization, on top of the incoming `mt1.message`. -/
theorem extractAfterHeaders_message (msg : RawMessage) (pl : Payload)
    (lt : LinksType) (sh : Bool) (ed : Option (List Header))
    (mt1 : Template) (t : Template)
    (hpl : msg.payload? = some pl)
    (h : extractAfterHeaders msg pl lt sh ed mt1 = .ok (.template t)) :
    ∃ texts, strippedTexts msg = .ok texts ∧
      t.message = normalizeText (mt1.message ++ joinStrings (texts.map clean_text)) := by
  rw [extractAfterHeaders] at h
  rcases hw : walkStage msg pl lt mt1 with e | ⟨mtW, links⟩ <;> rw [hw] at h
  · simp at h
  · simp only [exceptBind_ok] at h
    rcases hA : attachLinksStep lt links mtW with e | mt2 <;> rw [hA] at h
    · simp at h
    · simp only [exceptBind_ok] at h
      rcases hS : storeHeadersStep sh ed
          { mt2 with message := clean_text (remove_unicode mt2.message) } with
        e | mt4 <;> rw [hS] at h
      · simp at h
      · simp only [exceptBind_ok] at h
        injection h with h
        injection h with h
        have hm4 := storeHeadersStep_message sh ed _ mt4 hS
        have hm2 : mt2.message = mtW.message := by
          rcases attachLinksStep_ok lt links mtW with ⟨mt2x, hAx, hmx⟩
          rw [hA] at hAx
          injection hAx with hAx
          rw [← hAx] at hmx
          exact hmx
        rcases walkStage_texts msg pl lt mt1 mtW links hpl hw with ⟨texts, htx, hmw⟩
        refine ⟨texts, htx, ?_⟩
        rw [← h, hm4]
        show clean_text (remove_unicode mt2.message) = _
        rw [hm2, hmw, normalizeText]

/-- Claim C7 amended: `clean_text` is applied ONCE PER PART during walking
and the full normalization (`remove_unicode` then `clean_text`) is applied
once more to the accumulated text at the end of assembly: whenever the
assembler returns a template, its message equals the end normalization of
the concatenation of the per-part `clean_text` images of the link-stripped
part texts, in part order. -/
theorem C7_message_normalization (msg : RawMessage) (lt : LinksType)
    (sh : Bool) (t : Template)
    (h : extractCustomEmail msg lt sh = .ok (.template t)) :
    ∃ texts, strippedTexts msg = .ok texts ∧ t.message = actualC7Message texts := by
  rw [extractCustomEmail_ok_iff] at h
  rw [extractInner] at h
  rcases hpl : msg.payload? with _ | pl
  · rw [hpl] at h
    exact absurd h (by simp)
  · rw [hpl] at h
    have step : ∃ ed mt1, mt1.message = "" ∧
        extractAfterHeaders msg pl lt sh ed mt1 = .ok (.template t) := by
      rcases hh : pl.headers? with _ | hs
      · simp only [hh, exceptPure_eq, exceptBind_ok] at h
        exact ⟨Option.none, initialTemplate, rfl, h⟩
      · simp only [hh] at h
        rcases he : email_basic_information hs initialTemplate with e | mt1
        · rw [he] at h
          exact absurd h (by simp)
        · rw [he] at h
          simp only [exceptBind_ok, exceptPure_eq] at h
          exact ⟨some hs, mt1,
            email_basic_information_message hs initialTemplate mt1 he, h⟩
    rcases step with ⟨ed, mt1, hm1, hafter⟩
    rcases extractAfterHeaders_message msg pl lt sh ed mt1 t hpl hafter with
      ⟨texts, htx, hmsg⟩
    exact ⟨texts, htx, by rw [hmsg, hm1, actualC7Message]; rfl⟩

theorem C7_witness :
    ∃ texts, strippedTexts twoPartMsg = .ok texts ∧
      ("ab" : String) = actualC7Message texts :=
  C7_message_normalization twoPartMsg .NONE false
    { initialTemplate with message := "ab" } (by decide)

/-! ## Claim C8

The normalizer applied by the assembler is `clean_text` composed with
`remove_unicode`.  Its idempotence on printable-ASCII-plus-whitespace input
follows from three facts: the `remove_unicode` filters keep every character
the first pass kept (plus the `\n` the collapse may introduce); the output
of the newline collapse has no run of two or more newline sequences, a shape
preserved by the final strip, on which the collapse is the identity; and the
strip itself is idempotent.  Runs are characterized by the local relation
`nlAdj`: in a collapse fixpoint two adjacent newline characters can only be
the pair carriage-return/line-feed, and such a pair can extend no further. -/

def nlAdj (x y : Char) : Prop :=
  isNL x = true → isNL y = true → x = '\r' ∧ y = '\n'

def nlChainOK (l : List Char) : Prop :=
  List.Chain' nlAdj l

theorem isNL_cases (c : Char) (h : isNL c = true) : c = '\r' ∨ c = '\n' := by
  rw [isNL, Bool.or_eq_true, decide_eq_true_eq, decide_eq_true_eq] at h
  exact h

theorem nlAdj_left_nonNL (x y : Char) (hx : isNL x = false) : nlAdj x y := by
  intro h
  rw [hx] at h
  cases h

theorem goCollapse_nonNL (c : Char) (t : List Char) (hc : isNL c = false) :
    goCollapse [] (c :: t) = c :: goCollapse [] t := by
  rw [goCollapse, if_neg (by simp [hc])]
  rfl

theorem goCollapse_accum (rv : List Char) :
    ∀ l, (∀ c ∈ rv, isNL c = true) →
      goCollapse [] (rv.reverse ++ l) = goCollapse rv l := by
  induction rv with
  | nil => intro l _; rfl
  | cons x rv2 ih =>
    intro l hall
    rw [List.reverse_cons, List.append_assoc, List.singleton_append]
    rw [ih (x :: l) (fun c hc => hall c (List.mem_cons_of_mem x hc))]
    rw [goCollapse, if_pos (hall x (List.mem_cons_self x rv2))]

theorem flushRun_reverse (run : List Char) :
    flushRun run.reverse =
      if run = [] then []
      else if isSingleNLSeq run then run else ['\n'] := by
  rw [flushRun, List.reverse_reverse]

/-- The newline collapse on a list split as a maximal newline run followed
by nothing: the run alone is flushed. -/
theorem collapseNL_split_nil (l run : List Char) (hsplit : run ++ [] = l)
    (hall : ∀ c ∈ run, isNL c = true) :
    collapseNL l = flushRun run.reverse := by
  subst hsplit
  rw [List.append_nil, collapseNL]
  have h3 := goCollapse_accum run.reverse []
    (fun c hc => hall c (List.mem_reverse.mp hc))
  rw [List.reverse_reverse, List.append_nil] at h3
  rw [h3, goCollapse]

/-- The newline collapse on a list split as a maximal newline run followed
by a non-newline character: the run is flushed and the collapse restarts. -/
theorem collapseNL_split_cons (l run : List Char) (c2 : Char) (r2 : List Char)
    (hsplit : run ++ c2 :: r2 = l)
    (hall : ∀ c ∈ run, isNL c = true) (hc2 : isNL c2 = false) :
    collapseNL l = flushRun run.reverse ++ c2 :: collapseNL r2 := by
  subst hsplit
  rw [collapseNL]
  have h3 := goCollapse_accum run.reverse (c2 :: r2)
    (fun c hc => hall c (List.mem_reverse.mp hc))
  rw [List.reverse_reverse] at h3
  rw [h3, goCollapse, if_neg (by simp [hc2])]
  rfl

theorem dropWhile_head_false (p : Char → Bool) :
    ∀ (l : List Char) c r, l.dropWhile p = c :: r → p c = false := by
  intro l
  induction l with
  | nil =>
    intro c r h
    simp at h
  | cons a t ih =>
    intro c r h
    rw [List.dropWhile_cons] at h
    by_cases hpa : p a = true
    · rw [if_pos hpa] at h
      exact ih c r h
    · rw [if_neg hpa] at h
      injection h with h1 h2
      rw [← h1]
      exact Bool.eq_false_iff.mpr hpa

theorem length_dropWhile_le (p : Char → Bool) :
    ∀ l : List Char, (l.dropWhile p).length ≤ l.length := by
  intro l
  induction l with
  | nil => simp
  | cons a t ih =>
    rw [List.dropWhile_cons]
    by_cases hpa : p a = true
    · rw [if_pos hpa]
      exact Nat.le_trans ih (Nat.le_succ _)
    · rw [if_neg hpa]

theorem chain_singleNLSeq (run : List Char) (h : isSingleNLSeq run = true) :
    nlChainOK run := by
  rw [isSingleNLSeq] at h
  simp only [Bool.or_eq_true, decide_eq_true_eq] at h
  rcases h with (h | h) | h <;> rw [h]
  · exact List.chain'_singleton _
  · exact List.chain'_singleton _
  · exact List.chain'_cons.mpr ⟨fun _ _ => ⟨rfl, rfl⟩, List.chain'_singleton _⟩

/-- Facts about the maximal newline run at the head of a newline-headed
list: the decomposition, non-emptiness, membership, and head shape of the
remainder. -/
theorem nl_run_decomp (c : Char) (t : List Char) (hc : isNL c = true) :
    ((c :: t).takeWhile isNL ++ (c :: t).dropWhile isNL = c :: t) ∧
    ((c :: t).takeWhile isNL ≠ []) ∧
    (∀ x ∈ (c :: t).takeWhile isNL, isNL x = true) ∧
    (((c :: t).dropWhile isNL) = [] ∨
      ∃ c2 r2, (c :: t).dropWhile isNL = c2 :: r2 ∧ isNL c2 = false) ∧
    ((c :: t).dropWhile isNL).length ≤ t.length := by
  refine ⟨List.takeWhile_append_dropWhile isNL (c :: t), ?_,
    fun x hx => List.mem_takeWhile_imp hx, ?_, ?_⟩
  · rw [List.takeWhile_cons, hc]
    simp
  · rcases hdw : (c :: t).dropWhile isNL with _ | ⟨c2, r2⟩
    · exact Or.inl rfl
    · exact Or.inr ⟨c2, r2, rfl, dropWhile_head_false isNL (c :: t) c2 r2 hdw⟩
  · rw [List.dropWhile_cons, if_pos (by simp [hc])]
    exact length_dropWhile_le isNL t

theorem chain_collapseNL_aux (n : Nat) :
    ∀ l : List Char, l.length ≤ n → nlChainOK (collapseNL l) := by
  induction n with
  | zero =>
    intro l hl
    have h0 : l = [] := List.length_eq_zero.mp (Nat.le_zero.mp hl)
    rw [h0]
    exact List.chain'_nil
  | succ n ih =>
    intro l hl
    match l with
    | [] => exact List.chain'_nil
    | c :: t =>
      by_cases hc : isNL c = true
      · obtain ⟨hsplit, hrun_ne, hall, hdr, hdlen⟩ := nl_run_decomp c t hc
        have htok : nlChainOK (if isSingleNLSeq ((c :: t).takeWhile isNL) then
            (c :: t).takeWhile isNL else ['\n']) := by
          by_cases hs : isSingleNLSeq ((c :: t).takeWhile isNL) = true
          · rw [if_pos hs]
            exact chain_singleNLSeq _ hs
          · rw [if_neg (by simp_all)]
            exact List.chain'_singleton _
        rcases hdr with h2 | ⟨c2, r2, h2, hc2⟩
        · have hsplit2 : (c :: t).takeWhile isNL ++ [] = c :: t := by
            rw [← h2]
            exact hsplit
          rw [collapseNL_split_nil (c :: t) _ hsplit2 hall, flushRun_reverse,
            if_neg hrun_ne]
          exact htok
        · have hsplit2 : (c :: t).takeWhile isNL ++ c2 :: r2 = c :: t := by
            rw [← h2]
            exact hsplit
          rw [collapseNL_split_cons (c :: t) _ c2 r2 hsplit2 hall hc2,
            flushRun_reverse, if_neg hrun_ne]
          have hr2len : r2.length ≤ n := by
            rw [h2] at hdlen
            simp only [List.length_cons] at hdlen hl
            omega
          refine List.chain'_append.mpr ⟨htok, ?_, ?_⟩
          · exact List.Chain'.cons' (ih r2 hr2len)
              (fun y _ => nlAdj_left_nonNL c2 y hc2)
          · intro x _ y hy
            rw [List.head?_cons, Option.mem_some_iff] at hy
            rw [← hy]
            exact fun _ hnl => absurd hnl (by simp [hc2])
      · have hc2 : isNL c = false := by simp_all
        rw [collapseNL, goCollapse_nonNL c t hc2]
        have ht : t.length ≤ n := by
          simp only [List.length_cons] at hl
          omega
        exact List.Chain'.cons'
          (show nlChainOK (collapseNL t) from ih t ht)
          (fun y _ => nlAdj_left_nonNL c y hc2)

theorem chain_collapseNL (l : List Char) : nlChainOK (collapseNL l) :=
  chain_collapseNL_aux l.length l (Nat.le_refl _)

theorem run_single (run r : List Char) (hne : run ≠ [])
    (hall : ∀ c ∈ run, isNL c = true) (hch : nlChainOK (run ++ r)) :
    isSingleNLSeq run = true := by
  have hchr : nlChainOK run := List.Chain'.left_of_append hch
  match run, hne with
  | [x], _ =>
    rcases isNL_cases x (hall x (by simp)) with rfl | rfl <;> decide
  | x :: y :: rest, _ =>
    have hxy : nlAdj x y := (List.chain'_cons.mp hchr).1
    obtain ⟨rfl, rfl⟩ := hxy (hall x (by simp)) (hall y (by simp))
    match rest with
    | [] => decide
    | z :: rest2 =>
      have hyz : nlAdj '\n' z :=
        (List.chain'_cons.mp (List.chain'_cons.mp hchr).2).1
      obtain ⟨h1, _⟩ := hyz (by decide) (hall z (by simp))
      exact absurd h1 (by decide)

theorem collapseNL_fixpoint_aux (n : Nat) :
    ∀ l : List Char, l.length ≤ n → nlChainOK l → collapseNL l = l := by
  induction n with
  | zero =>
    intro l hl _
    have h0 : l = [] := List.length_eq_zero.mp (Nat.le_zero.mp hl)
    rw [h0]
    rfl
  | succ n ih =>
    intro l hl hch
    match l with
    | [] => rfl
    | c :: t =>
      by_cases hc : isNL c = true
      · obtain ⟨hsplit, hrun_ne, hall, hdr, hdlen⟩ := nl_run_decomp c t hc
        have hsingle : isSingleNLSeq ((c :: t).takeWhile isNL) = true := by
          refine run_single _ ((c :: t).dropWhile isNL) hrun_ne hall ?_
          rw [hsplit]
          exact hch
        rcases hdr with h2 | ⟨c2, r2, h2, hc2⟩
        · have hsplit2 : (c :: t).takeWhile isNL ++ [] = c :: t := by
            rw [← h2]
            exact hsplit
          rw [collapseNL_split_nil (c :: t) _ hsplit2 hall, flushRun_reverse,
            if_neg hrun_ne, if_pos hsingle]
          rw [List.append_nil] at hsplit2
          exact hsplit2
        · have hsplit2 : (c :: t).takeWhile isNL ++ c2 :: r2 = c :: t := by
            rw [← h2]
            exact hsplit
          rw [collapseNL_split_cons (c :: t) _ c2 r2 hsplit2 hall hc2,
            flushRun_reverse, if_neg hrun_ne, if_pos hsingle]
          have hr2len : r2.length ≤ n := by
            rw [h2] at hdlen
            simp only [List.length_cons] at hdlen hl
            omega
          have hchr2 : nlChainOK r2 := by
            have h4 : nlChainOK (c2 :: r2) := by
              have h5 : nlChainOK ((c :: t).takeWhile isNL ++ c2 :: r2) := by
                rw [hsplit2]
                exact hch
              exact List.Chain'.right_of_append h5
            exact List.Chain'.tail h4
          rw [ih r2 hr2len hchr2]
          exact hsplit2
      · have hc2 : isNL c = false := by simp_all
        rw [collapseNL, goCollapse_nonNL c t hc2]
        have ht : t.length ≤ n := by
          simp only [List.length_cons] at hl
          omega
        rw [show goCollapse [] t = collapseNL t from rfl,
          ih t ht (List.Chain'.tail hch)]

theorem collapseNL_fixpoint (l : List Char) (h : nlChainOK l) :
    collapseNL l = l :=
  collapseNL_fixpoint_aux l.length l (Nat.le_refl _) h


theorem rstripL_eq_append (p : Char → Bool) :
    ∀ l : List Char, ∃ u, rstripL p l ++ u = l := by
  intro l
  induction l with
  | nil => exact ⟨[], rfl⟩
  | cons c t ih =>
    rw [rstripL]
    rcases h : rstripL p t with _ | ⟨a, r⟩
    · by_cases hpc : p c = true
      · rw [if_pos hpc]
        exact ⟨c :: t, rfl⟩
      · rw [if_neg hpc]
        rcases ih with ⟨u, hu⟩
        rw [h] at hu
        exact ⟨u, by rw [List.singleton_append, ← hu]; rfl⟩
    · rcases ih with ⟨u, hu⟩
      rw [h] at hu
      exact ⟨u, by rw [List.cons_append, ← hu]⟩

theorem rstripL_head (p : Char → Bool) (c : Char) (t : List Char) :
    rstripL p (c :: t) = [] ∨ ∃ r, rstripL p (c :: t) = c :: r := by
  rw [rstripL]
  rcases h : rstripL p t with _ | ⟨a, r⟩
  · by_cases hpc : p c = true
    · rw [if_pos hpc]
      exact Or.inl rfl
    · rw [if_neg hpc]
      exact Or.inr ⟨[], rfl⟩
  · exact Or.inr ⟨a :: r, rfl⟩

theorem rstripL_idem (p : Char → Bool) :
    ∀ l : List Char, rstripL p (rstripL p l) = rstripL p l := by
  intro l
  induction l with
  | nil => rfl
  | cons c t ih =>
    rw [rstripL]
    rcases h : rstripL p t with _ | ⟨a, r⟩
    · by_cases hpc : p c = true
      · rw [if_pos hpc]
        rfl
      · rw [if_neg hpc]
        rw [rstripL, rstripL, if_neg hpc]
    · rw [h] at ih
      rw [rstripL, ih]

theorem chain_rstripL (p : Char → Bool) (l : List Char) (h : nlChainOK l) :
    nlChainOK (rstripL p l) := by
  rcases rstripL_eq_append p l with ⟨u, hu⟩
  rw [← hu] at h
  exact List.Chain'.left_of_append h

theorem chain_dropWhile (p : Char → Bool) (l : List Char) (h : nlChainOK l) :
    nlChainOK (l.dropWhile p) := by
  have h2 := List.takeWhile_append_dropWhile p l
  rw [← h2] at h
  exact List.Chain'.right_of_append h

theorem chain_pyStripL (l : List Char) (h : nlChainOK l) :
    nlChainOK (pyStripL l) :=
  chain_rstripL _ _ (chain_dropWhile _ _ h)

theorem pyStripL_idem (l : List Char) : pyStripL (pyStripL l) = pyStripL l := by
  rw [pyStripL, pyStripL]
  rcases hy : rstripL isPySpace (l.dropWhile isPySpace) with _ | ⟨c, r⟩
  · rfl
  · have hhead : isPySpace c = false := by
      rcases hd : l.dropWhile isPySpace with _ | ⟨a, t⟩
      · rw [hd] at hy
        simp [rstripL] at hy
      · rw [hd] at hy
        rcases rstripL_head isPySpace a t with h1 | ⟨r2, h2⟩
        · rw [h1] at hy
          cases hy
        · rw [h2] at hy
          injection hy with hy1 _
          rw [← hy1]
          exact dropWhile_head_false isPySpace l a t hd
    rw [List.dropWhile_cons, if_neg (by simp [hhead])]
    have h3 := rstripL_idem isPySpace (l.dropWhile isPySpace)
    rw [hy] at h3
    exact h3

theorem mem_flushRun (c : Char) (rv : List Char) (h : c ∈ flushRun rv) :
    c ∈ rv ∨ c = '\n' := by
  rw [flushRun] at h
  by_cases h1 : rv.reverse = []
  · rw [if_pos h1] at h
    cases h
  · rw [if_neg h1] at h
    by_cases h2 : isSingleNLSeq rv.reverse = true
    · rw [if_pos h2] at h
      exact Or.inl (List.mem_reverse.mp h)
    · rw [if_neg h2] at h
      rcases List.mem_singleton.mp h with rfl
      exact Or.inr rfl

theorem mem_goCollapse :
    ∀ (l rv : List Char) (c : Char), c ∈ goCollapse rv l →
      c ∈ rv ∨ c ∈ l ∨ c = '\n' := by
  intro l
  induction l with
  | nil =>
    intro rv c h
    rw [goCollapse] at h
    rcases mem_flushRun c rv h with h2 | h2
    · exact Or.inl h2
    · exact Or.inr (Or.inr h2)
  | cons a t ih =>
    intro rv c h
    rw [goCollapse] at h
    by_cases ha : isNL a = true
    · rw [if_pos ha] at h
      rcases ih (a :: rv) c h with h2 | h2 | h2
      · rcases List.mem_cons.mp h2 with rfl | h3
        · exact Or.inr (Or.inl (List.mem_cons_self _ _))
        · exact Or.inl h3
      · exact Or.inr (Or.inl (List.mem_cons_of_mem a h2))
      · exact Or.inr (Or.inr h2)
    · rw [if_neg ha] at h
      rcases List.mem_append.mp h with h2 | h2
      · rcases mem_flushRun c rv h2 with h3 | h3
        · exact Or.inl h3
        · exact Or.inr (Or.inr h3)
      · rcases List.mem_cons.mp h2 with rfl | h3
        · exact Or.inr (Or.inl (List.mem_cons_self _ _))
        · rcases ih [] c h3 with h4 | h4 | h4
          · cases h4
          · exact Or.inr (Or.inl (List.mem_cons_of_mem a h4))
          · exact Or.inr (Or.inr h4)

theorem mem_rstripL (p : Char → Bool) (l : List Char) (c : Char)
    (h : c ∈ rstripL p l) : c ∈ l := by
  rcases rstripL_eq_append p l with ⟨u, hu⟩
  rw [← hu]
  exact List.mem_append_left u h

theorem mem_dropWhile (p : Char → Bool) (l : List Char) (c : Char)
    (h : c ∈ l.dropWhile p) : c ∈ l := by
  have h2 := List.takeWhile_append_dropWhile p l
  rw [← h2]
  exact List.mem_append_right _ h

theorem mem_pyStripL (l : List Char) (c : Char) (h : c ∈ pyStripL l) : c ∈ l :=
  mem_dropWhile _ _ _ (mem_rstripL _ _ _ h)

theorem mem_cleanTextL (l : List Char) (c : Char) (h : c ∈ cleanTextL l) :
    c ∈ l ∨ c = '\n' := by
  rw [cleanTextL] at h
  by_cases hl : l = []
  · rw [if_pos hl] at h
    cases h
  · rw [if_neg hl] at h
    have h2 := mem_pyStripL _ _ h
    have h3 := List.mem_filter.mp h2
    rcases mem_goCollapse l [] c h3.1 with h4 | h4 | h4
    · cases h4
    · exact Or.inl h4
    · exact Or.inr h4

theorem filter_id (p : Char → Bool) (l : List Char)
    (h : ∀ c ∈ l, p c = true) : l.filter p = l :=
  List.filter_eq_self.mpr h

theorem isFmtChar_eq_false (c : Char) (h : c.toNat < 0x2000) :
    isFmtChar c = false := by
  rw [Bool.eq_false_iff]
  intro hcontra
  rw [isFmtChar] at hcontra
  simp only [Bool.or_eq_true, Bool.and_eq_true, decide_eq_true_eq] at hcontra
  omega

/-- On input without formatting characters whose collapse is already a
fixpoint and which is already stripped, `clean_text` is the identity. -/
theorem cleanTextL_fixpoint (u : List Char) (hch : nlChainOK u)
    (hfmt : ∀ c ∈ u, isFmtChar c = false) (hstrip : pyStripL u = u) :
    cleanTextL u = u := by
  by_cases hu : u = []
  · rw [hu]
    rfl
  · rw [cleanTextL, if_neg hu, collapseNL_fixpoint u hch,
      filter_id (fun c => !(isFmtChar c)) u
        (fun c hc => by simp [hfmt c hc])]
    exact hstrip

/-- The list-level idempotence core: `t` is the output of the
`remove_unicode` filters on printable-ASCII-plus-whitespace input, so every
character of `t` is kept by both filters and is below U+2000. -/
theorem normalize_core_idem (t : List Char)
    (hkeep : ∀ c ∈ t, keepRemoveUnicode c = true)
    (hinv : ∀ c ∈ t, isInvisChar c = false)
    (hascii : ∀ c ∈ t, c.toNat < 0x2000) :
    cleanTextL (removeUnicodeL (cleanTextL t)) = cleanTextL t := by
  have hnl_keep : keepRemoveUnicode '\n' = true := by decide
  have hnl_inv : isInvisChar '\n' = false := by decide
  have hnl_ascii : ('\n').toNat < 0x2000 := by decide
  have hu_keep : ∀ c ∈ cleanTextL t, keepRemoveUnicode c = true := by
    intro c hc
    rcases mem_cleanTextL t c hc with h | rfl
    · exact hkeep c h
    · exact hnl_keep
  have hu_inv : ∀ c ∈ cleanTextL t, isInvisChar c = false := by
    intro c hc
    rcases mem_cleanTextL t c hc with h | rfl
    · exact hinv c h
    · exact hnl_inv
  have hu_ascii : ∀ c ∈ cleanTextL t, c.toNat < 0x2000 := by
    intro c hc
    rcases mem_cleanTextL t c hc with h | rfl
    · exact hascii c h
    · exact hnl_ascii
  have hru : removeUnicodeL (cleanTextL t) = cleanTextL t := by
    rw [removeUnicodeL,
      filter_id (fun c => !(isInvisChar c)) (cleanTextL t)
        (fun c hc => by simp [hu_inv c hc]),
      filter_id keepRemoveUnicode (cleanTextL t) hu_keep]
  rw [hru]
  by_cases ht : t = []
  · rw [ht]
    rfl
  · have hcoll_ascii : ∀ c ∈ collapseNL t, c.toNat < 0x2000 := by
      intro c hc
      rcases mem_goCollapse t [] c hc with h5 | h5 | h5
      · cases h5
      · exact hascii c h5
      · rw [h5]
        exact hnl_ascii
    have hform : cleanTextL t = pyStripL (collapseNL t) := by
      rw [cleanTextL, if_neg ht,
        filter_id (fun c => !(isFmtChar c)) (collapseNL t)
          (fun c hc => by simp [isFmtChar_eq_false c (hcoll_ascii c hc)])]
    refine cleanTextL_fixpoint (cleanTextL t) ?_ ?_ ?_
    · rw [hform]
      exact chain_pyStripL _ (chain_collapseNL t)
    · intro c hc
      exact isFmtChar_eq_false c (hu_ascii c hc)
    · rw [hform]
      exact pyStripL_idem (collapseNL t)

/-- Claim C8: the text normalizer exactly as applied by the assembler
(`remove_unicode` then `clean_text`) is idempotent on every
printable-ASCII-plus-whitespace string. -/
theorem C8_normalize_idempotent (s : String)
    (h : ∀ c ∈ s.data, printableAsciiWS c = true) :
    normalizeText (normalizeText s) = normalizeText s := by
  show String.mk (cleanTextL (removeUnicodeL
      (cleanTextL (removeUnicodeL s.data)))) =
    String.mk (cleanTextL (removeUnicodeL s.data))
  have hmem : ∀ c ∈ removeUnicodeL s.data, c ∈ s.data := by
    intro c hc
    rw [removeUnicodeL] at hc
    exact (List.mem_filter.mp ((List.mem_filter.mp hc).1)).1
  have hkeep : ∀ c ∈ removeUnicodeL s.data, keepRemoveUnicode c = true := by
    intro c hc
    exact (List.mem_filter.mp hc).2
  have hinv : ∀ c ∈ removeUnicodeL s.data, isInvisChar c = false := by
    intro c hc
    rw [removeUnicodeL] at hc
    have h2 := (List.mem_filter.mp ((List.mem_filter.mp hc).1)).2
    simp only [Bool.not_eq_true'] at h2
    exact h2
  have hascii : ∀ c ∈ removeUnicodeL s.data, c.toNat < 0x2000 := by
    intro c hc
    have h2 := h c (hmem c hc)
    rw [printableAsciiWS] at h2
    simp only [Bool.or_eq_true, Bool.and_eq_true, decide_eq_true_eq] at h2
    omega
  rw [normalize_core_idem (removeUnicodeL s.data) hkeep hinv hascii]

theorem C8_witness :
    (∀ c ∈ ("ab\r\n\r\n  cd.".data), printableAsciiWS c = true) ∧
    normalizeText (normalizeText "ab\r\n\r\n  cd.") =
      normalizeText "ab\r\n\r\n  cd." :=
  ⟨by decide, C8_normalize_idempotent "ab\r\n\r\n  cd." (by decide)⟩

/-! ## Claim C2

The round trip of a URL: found by the walker scan (`HTTP_HTTPS_URL`),
re-scanned by `links_detailed` (`DETAILED_LINK`) into the links dictionary,
and removed from the message text (the end normalization alone already
deletes the `:` of the scheme, so no URL can survive in the message).  The
scan lemmas evaluate the `re` loop symbolically: the skip counter drops
characters, positions without a match pass through, and a match at the head
consumes exactly its span. -/

theorem scanWith_nil (m : List Char → Option (List Char)) :
    scanWith m 0 [] = ([], []) := rfl

theorem scanWith_skip (m : List Char → Option (List Char)) :
    ∀ (s : Nat) (l : List Char), scanWith m s l = scanWith m 0 (l.drop s) := by
  intro s
  induction s with
  | zero => intro l; rfl
  | succ n ih =>
    intro l
    cases l with
    | nil => rfl
    | cons c t =>
      show scanWith m n t = scanWith m 0 ((c :: t).drop (n + 1))
      rw [List.drop_succ_cons]
      exact ih t

theorem scanWith_append_none (m : List Char → Option (List Char)) :
    ∀ (x y : List Char), (∀ i, i < x.length → m ((x ++ y).drop i) = none) →
      scanWith m 0 (x ++ y) = ((scanWith m 0 y).1, x ++ (scanWith m 0 y).2) := by
  intro x
  induction x with
  | nil => intro y _; rfl
  | cons c t ih =>
    intro y h
    have h0 : m (c :: (t ++ y)) = none := h 0 (by simp)
    rw [List.cons_append]
    simp only [scanWith, h0]
    rw [ih y (fun i hi => h (i + 1) (by simp [hi]))]
    rfl

theorem scanWith_no_match (m : List Char → Option (List Char)) (l : List Char)
    (h : ∀ i, i < l.length → m (l.drop i) = none) :
    scanWith m 0 l = ([], l) := by
  have h2 := scanWith_append_none m l [] (by
    intro i hi
    rw [List.append_nil]
    exact h i hi)
  simp only [scanWith_nil, List.append_nil] at h2
  exact h2

theorem scanWith_head_match (m : List Char → Option (List Char))
    (u r2 : List Char) (hne : u ≠ []) (hm : m (u ++ r2) = some u) :
    scanWith m 0 (u ++ r2) =
      (u :: (scanWith m 0 r2).1, (scanWith m 0 r2).2) := by
  rcases u with _ | ⟨c, ut⟩
  · exact absurd rfl hne
  · rw [List.cons_append] at hm
    rw [List.cons_append]
    simp only [scanWith, hm]
    rw [show (c :: ut).length - 1 = ut.length from by simp]
    rw [scanWith_skip m ut.length (ut ++ r2), List.drop_left]

theorem isPrefixOf_self_append (x y : List Char) : x.isPrefixOf (x ++ y) = true := by
  induction x with
  | nil => simp [List.isPrefixOf]
  | cons c t ih => simp [List.isPrefixOf, ih]

theorem takeWhile_append_stop (p : Char → Bool) :
    ∀ (t r : List Char), (∀ c ∈ t, p c = true) → r.takeWhile p = [] →
      (t ++ r).takeWhile p = t := by
  intro t
  induction t with
  | nil =>
    intro r _ h2
    simpa using h2
  | cons c ts ih =>
    intro r h1 h2
    rw [List.cons_append, List.takeWhile_cons,
      if_pos (h1 c (List.mem_cons_self c ts)),
      ih r (fun x hx => h1 x (List.mem_cons_of_mem c hx)) h2]

theorem anchorMatch_head (anchor : List Char) (p : Char → Bool)
    (tl r2 : List Char) (hne : tl ≠ []) (htl : ∀ c ∈ tl, p c = true)
    (hstop : r2.takeWhile p = []) :
    anchorMatch anchor p (anchor ++ (tl ++ r2)) = some (anchor ++ tl) := by
  simp only [anchorMatch]
  rw [if_pos (isPrefixOf_self_append anchor (tl ++ r2)),
    List.drop_left, takeWhile_append_stop p tl r2 htl hstop, if_neg hne]

theorem matchDetailed_head (scheme tl r2 : List Char)
    (hs : scheme = "https://".data ∨ scheme = "http://".data)
    (hne : tl ≠ []) (htl : ∀ c ∈ tl, isPySpace c = false)
    (hstop : r2.takeWhile (fun c => !(isPySpace c)) = []) :
    matchDetailed (scheme ++ (tl ++ r2)) = some (scheme ++ tl) := by
  have htl2 : ∀ c ∈ tl, (!(isPySpace c)) = true := by
    intro c hc
    simp [htl c hc]
  rcases hs with rfl | rfl
  · rw [matchDetailed,
      anchorMatch_head "https://".data (fun c => !(isPySpace c)) tl r2 hne htl2 hstop]
  · have h1 : anchorMatch "https://".data (fun c => !(isPySpace c))
        ("http://".data ++ (tl ++ r2)) = none := rfl
    rw [matchDetailed, h1,
      anchorMatch_head "http://".data (fun c => !(isPySpace c)) tl r2 hne htl2 hstop]

theorem matchHTTP_head (scheme tl r2 : List Char)
    (hs : scheme = "https://".data ∨ scheme = "http://".data)
    (hne : tl ≠ []) (htl : ∀ c ∈ tl, isPySpace c = false)
    (hstop : r2.takeWhile (fun c => !(isPySpace c)) = []) :
    matchHTTP (scheme ++ (tl ++ r2)) = some (scheme ++ tl) := by
  have htl2 : ∀ c ∈ tl, (!(isPySpace c)) = true := by
    intro c hc
    simp [htl c hc]
  rcases hs with rfl | rfl
  · rw [matchHTTP,
      anchorMatch_head "https://".data (fun c => !(isPySpace c)) tl r2 hne htl2 hstop]
  · have h1 : anchorMatch "https://".data (fun c => !(isPySpace c))
        ("http://".data ++ (tl ++ r2)) = none := rfl
    rw [matchHTTP, h1,
      anchorMatch_head "http://".data (fun c => !(isPySpace c)) tl r2 hne htl2 hstop]

theorem walkParts_text_step (q : Part) (mt : Template) (links : List String)
    (d c : String) (rest : List Part)
    (hqm : q.mimeType? = some "text/plain")
    (hqb : q.body? = some { data? := some d })
    (hd : decodeStr d = .ok c) :
    walkParts mt links (q :: rest) =
      walkParts
        { mt with message := mt.message ++
            clean_text (String.mk (subWith matchHTTP (soupGetText c).data)) }
        (links ++ (findallWith matchHTTP c.data).map String.mk) rest := by
  have hdc : decodeChunk q = Except.ok c := by
    simp only [decodeChunk, hqb, exceptPure_eq, exceptBind_ok]
    exact hd
  rw [walkParts]
  simp only [hqm, true_or, if_true]
  simp only [hdc]

theorem walkParts_two_text (q1 q2 : Part) (mt : Template) (d1 d2 c1 c2 : String)
    (h1m : q1.mimeType? = some "text/plain")
    (h1b : q1.body? = some { data? := some d1 })
    (h2m : q2.mimeType? = some "text/plain")
    (h2b : q2.body? = some { data? := some d2 })
    (hd1 : decodeStr d1 = .ok c1) (hd2 : decodeStr d2 = .ok c2) :
    walkParts mt [] [q1, q2] =
      .ok ({ mt with message := (mt.message ++ clean_text (String.mk (subWith matchHTTP (soupGetText c1).data))) ++ clean_text (String.mk (subWith matchHTTP (soupGetText c2).data)) },
        ((findallWith matchHTTP c1.data).map String.mk)
          ++ (findallWith matchHTTP c2.data).map String.mk) := by
  rw [walkParts_text_step q1 mt [] d1 c1 [q2] h1m h1b hd1]
  rw [walkParts_text_step q2 _ _ d2 c2 [] h2m h2b hd2]
  rw [walkParts, List.nil_append]

/-- Every character of the end-normalized message survives the
`remove_unicode` keep filter (or is the `\n` the collapse introduces, which
that filter keeps as whitespace). -/
theorem mem_normalize_keep (s : String) (c : Char)
    (h : c ∈ (clean_text (remove_unicode s)).data) : keepRemoveUnicode c = true := by
  have h2 := mem_cleanTextL (removeUnicodeL s.data) c h
  rcases h2 with h2 | rfl
  · exact (List.mem_filter.mp h2).2
  · decide

/-- Claim C2: on a two-text-part message whose first part embeds an http(s)
URL mid-sentence (a scheme anchor followed by a non-empty run of non-space
characters, ended by a whitespace-or-end boundary, with no other scan
trigger anywhere in either part), assembling with linkMode=DETAILED yields a
template whose links dictionary holds exactly that URL once, and the URL
occurs nowhere in the assembled message text. -/
theorem C2_detailed_roundtrip
    (msg : RawMessage) (pl : Payload) (q1 q2 : Part)
    (d1 d2 c1 c2 : String) (pre scheme tl post other : List Char)
    (hmsg : msg.payload? = some pl)
    (hplh : pl.headers? = Option.none)
    (hplp : pl.parts? = some [q1, q2])
    (h1m : q1.mimeType? = some "text/plain")
    (h1b : q1.body? = some { data? := some d1 })
    (h2m : q2.mimeType? = some "text/plain")
    (h2b : q2.body? = some { data? := some d2 })
    (hd1 : decodeStr d1 = .ok c1)
    (hd2 : decodeStr d2 = .ok c2)
    (hc1 : c1.data = pre ++ ((scheme ++ tl) ++ post))
    (hc2 : c2.data = other)
    (hsch : scheme = "https://".data ∨ scheme = "http://".data)
    (htlne : tl ≠ [])
    (htlns : ∀ c ∈ tl, isPySpace c = false)
    (hstop : post.takeWhile (fun c => !(isPySpace c)) = [])
    (hpre : ∀ i, i < pre.length → matchHTTP (c1.data.drop i) = none)
    (hpost : ∀ i, i < post.length → matchHTTP (post.drop i) = none)
    (hoth : ∀ i, i < other.length → matchHTTP (other.drop i) = none) :
    ∃ t : Template,
      extractCustomEmail msg .DETAILED false = .ok (.template t) ∧
      t.linksHref = [String.mk (scheme ++ tl)] ∧
      t.linksNumber = 1 ∧
      ∀ a b : List Char, a ++ (scheme ++ tl) ++ b ≠ t.message.data := by
  have hune : scheme ++ tl ≠ [] := by
    intro hcontra
    exact htlne (List.append_eq_nil.mp hcontra).2
  have hmh : matchHTTP ((scheme ++ tl) ++ post) = some (scheme ++ tl) := by
    rw [List.append_assoc]
    exact matchHTTP_head scheme tl post hsch htlne htlns hstop
  have hfind1 : findallWith matchHTTP c1.data = [scheme ++ tl] := by
    rw [findallWith, hc1]
    rw [scanWith_append_none matchHTTP pre ((scheme ++ tl) ++ post)
      (fun i hi => by rw [← hc1]; exact hpre i hi)]
    rw [scanWith_head_match matchHTTP (scheme ++ tl) post hune hmh]
    rw [scanWith_no_match matchHTTP post hpost]
  have hfind2 : findallWith matchHTTP c2.data = [] := by
    rw [findallWith, hc2, scanWith_no_match matchHTTP other hoth]
  have hfd : findallWith matchDetailed (scheme ++ tl) = [scheme ++ tl] := by
    have hmd : matchDetailed ((scheme ++ tl) ++ []) = some (scheme ++ tl) := by
      rw [List.append_assoc]
      exact matchDetailed_head scheme tl [] hsch htlne htlns rfl
    have hsc := scanWith_head_match matchDetailed (scheme ++ tl) [] hune hmd
    rw [List.append_nil] at hsc
    rw [findallWith, hsc, scanWith_nil]
  have hld : links_detailed [String.mk (scheme ++ tl)] = [String.mk (scheme ++ tl)] := by
    rw [links_detailed]
    simp only [List.flatMap_cons, List.flatMap_nil, List.append_nil]
    rw [hfd]
    rfl
  have hwalk0 := walkParts_two_text q1 q2 initialTemplate d1 d2 c1 c2 h1m h1b h2m h2b hd1 hd2
  rw [hfind1, hfind2] at hwalk0
  simp only [List.map_cons, List.map_nil, List.append_nil] at hwalk0
  obtain ⟨mtW, hwalk⟩ : ∃ mtW : Template, walkParts initialTemplate [] [q1, q2] =
      .ok (mtW, [String.mk (scheme ++ tl)]) := ⟨_, hwalk0⟩
  have hemfp : email_message_from_partial msg initialTemplate =
      .ok (.template mtW, [String.mk (scheme ++ tl)]) := by
    rw [ email_message_from_partial]
    rw [non_empty_dict, payload_not_emptyDict msg pl hmsg]
    simp only [Bool.false_eq_true, if_false, exceptBind_ok, hmsg, hplp]
    rw [hwalk]
    simp only [exceptBind_ok]
  have hws : walkStage msg pl .DETAILED initialTemplate =
      .ok (mtW, [String.mk (scheme ++ tl)]) := by
    rw [walkStage.eq_def]
    simp only [hplp]
    rw [hemfp]
    simp only [exceptBind_ok, handleWalkPair]
  have hadd : add_links [String.mk (scheme ++ tl)] "links_detailed" mtW =
      .ok { mtW with linksHref := [String.mk (scheme ++ tl)], linksNumber := 1 } := by
    rw [add_links, if_neg (by decide), if_pos rfl, hld]
    rfl
  have hattach : attachLinksStep .DETAILED [String.mk (scheme ++ tl)] mtW =
      .ok { mtW with linksHref := [String.mk (scheme ++ tl)], linksNumber := 1 } := by
    rw [attachLinksStep, if_pos (by decide)]
    exact hadd
  have hafter : extractAfterHeaders msg pl .DETAILED false Option.none initialTemplate =
      .ok (.template { mtW with linksHref := [String.mk (scheme ++ tl)], linksNumber := 1, message := clean_text (remove_unicode mtW.message) }) := by
    rw [extractAfterHeaders, hws]
    simp only [exceptBind_ok]
    rw [hattach]
    simp only [exceptBind_ok]
    rw [storeHeadersStep_false]
    rfl
  have hinner : extractInner msg .DETAILED false =
      .ok (.template { mtW with linksHref := [String.mk (scheme ++ tl)], linksNumber := 1, message := clean_text (remove_unicode mtW.message) }) := by
    rw [extractInner, hmsg]
    simp only [hplh, exceptPure_eq, exceptBind_ok]
    exact hafter
  refine ⟨{ mtW with linksHref := [String.mk (scheme ++ tl)], linksNumber := 1, message := clean_text (remove_unicode mtW.message) }, ?_, rfl, rfl, ?_⟩
  · rw [extractCustomEmail_ok_iff]
    exact hinner
  · intro a b hab
    have hc_in : (':' : Char) ∈ (a ++ (scheme ++ tl)) ++ b := by
      refine List.mem_append_left b (List.mem_append_right a ?_)
      refine List.mem_append_left tl ?_
      rcases hsch with rfl | rfl <;> decide
    rw [hab] at hc_in
    have hkeep := mem_normalize_keep mtW.message ':' hc_in
    exact absurd hkeep (by decide)

theorem C2_witness :
    (decodeStr "c2VlIGh0dHBzOi8vYS5jb20veCBhbmQgbW9yZQ==" =
      .ok "see https://a.com/x and more") ∧
    ∃ t : Template,
      extractCustomEmail urlMsg .DETAILED false = .ok (.template t) ∧
      t.linksHref = [String.mk ("https://".data ++ "a.com/x".data)] ∧
      t.linksNumber = 1 ∧
      ∀ a b : List Char,
        a ++ ("https://".data ++ "a.com/x".data) ++ b ≠ t.message.data :=
  ⟨by decide,
   C2_detailed_roundtrip urlMsg
     ⟨Option.none, some
       [⟨some "text/plain", some ⟨some "c2VlIGh0dHBzOi8vYS5jb20veCBhbmQgbW9yZQ=="⟩⟩,
        ⟨some "text/plain", some ⟨some "aGVsbG8gd29ybGQ="⟩⟩]⟩
     ⟨some "text/plain", some ⟨some "c2VlIGh0dHBzOi8vYS5jb20veCBhbmQgbW9yZQ=="⟩⟩
     ⟨some "text/plain", some ⟨some "aGVsbG8gd29ybGQ="⟩⟩
     "c2VlIGh0dHBzOi8vYS5jb20veCBhbmQgbW9yZQ==" "aGVsbG8gd29ybGQ="
     "see https://a.com/x and more" "hello world"
     "see ".data "https://".data "a.com/x".data " and more".data "hello world".data
     rfl rfl rfl rfl rfl rfl rfl (by decide) (by decide) (by decide) rfl
     (Or.inl rfl) (by decide) (by decide) (by decide) (by decide) (by decide)
     (by decide)⟩

end GmailPy
